import Mathlib

/-!
Shallow embedding of the constraint-filtered candidate retrieval engine of the
puzzlehunt_tools repository (src/pinyin_tools.py, src/vocabulary_preprocessor.py,
src/qwen_synonym_searcher_v3.py, src/qwen_synonym_searcher.py), together with
theorems settling the claims about its specification.

Conventions of the embedding:
* Python strings are Lean `String`; Python `len` on a Chinese word equals
  `String.length` (both count unicode code points).
* Python dictionaries that act as external data tables (the preprocessor
  lexicon, the character-info table, the pinyin searcher word data, the
  embedding client) are fields of an explicit environment structure.
* Fallible code is modelled in `Except String`; the single raising operation in
  the modelled surface is the call to the undefined method
  `binary_search_by_pinyin_prefix` (its intended body is unreachable dead code
  after the `return` of `binary_search_by_radical`), modelled as
  `Except.error pyAttributeErrorMsg`, and the catch-all handler of
  `search_synonyms` converts any error into the error-message result triple.
* numpy float vectors are modelled as `List ℝ` with exact real arithmetic.
-/

set_option maxHeartbeats 4000000
set_option maxRecDepth 4000


/-! ## Kernel-evaluable string primitives

Lean core implements several `String` operations (`toLower`, `trim`,
`isPrefixOf`, `startsWith`, `contains`, `split`, `replace`) through
position-based loops that the kernel cannot reduce; the embedding uses the
following character-list implementations of the corresponding Python string
operations instead, so that concrete runs of the modelled code can be checked
by evaluation. -/

/-- Python `str.lower` (ASCII case mapping, as in Lean core `Char.toLower`;
the accented pinyin letters in the data are already lowercase). -/
def str_lower (s : String) : String := String.mk (s.data.map Char.toLower)

/-- A Python whitespace character (the default `str.strip` set). -/
def py_space (c : Char) : Bool :=
  c = ' ' || c = '\t' || c = '\n' || c = '\r' || c = '\x0b' || c = '\x0c'

/-- Python `str.strip()` with the default whitespace set. -/
def py_strip (s : String) : String :=
  String.mk (((s.data.dropWhile py_space).reverse.dropWhile py_space).reverse)

/-- List version of prefix testing. -/
def list_starts_with : List Char → List Char → Bool
  | [], _ => true
  | _ :: _, [] => false
  | a :: as, b :: bs => a = b && list_starts_with as bs

/-- Python `s.startswith(pre)`. -/
def str_starts (s pre : String) : Bool := list_starts_with pre.data s.data

/-- Python `s.endswith(suf)`. -/
def str_ends (s suf : String) : Bool :=
  list_starts_with suf.data.reverse s.data.reverse

/-- Split a string at every character satisfying the predicate (the semantics
of Lean `String.split` and of Python `str.split` before empty-piece
filtering). -/
def split_char_aux (p : Char → Bool) : List Char → List Char → List String
  | [], cur => [String.mk cur.reverse]
  | c :: rest, cur =>
      if p c then String.mk cur.reverse :: split_char_aux p rest []
      else split_char_aux p rest (c :: cur)

/-- Split at every matching character. -/
def py_split_char (p : Char → Bool) (s : String) : List String :=
  split_char_aux p s.data []

/-- Python `str.replace` for a single-character pattern and replacement. -/
def str_replace_char (s : String) (a b : Char) : String :=
  String.mk (s.data.map (fun c => if c = a then b else c))

/-! ## pinyin_tools.py -/

/-- Tone-mark to base-letter table of `pinyin_tools.split_initial_final`
(`tone_map` in the source); every pattern is a single character, so the chain of
`str.replace` calls is a per-character map. -/
def pt_tone_char_map (c : Char) : Char :=
  if c = 'ā' ∨ c = 'á' ∨ c = 'ǎ' ∨ c = 'à' then 'a'
  else if c = 'ē' ∨ c = 'é' ∨ c = 'ě' ∨ c = 'è' then 'e'
  else if c = 'ī' ∨ c = 'í' ∨ c = 'ǐ' ∨ c = 'ì' then 'i'
  else if c = 'ō' ∨ c = 'ó' ∨ c = 'ǒ' ∨ c = 'ò' then 'o'
  else if c = 'ū' ∨ c = 'ú' ∨ c = 'ǔ' ∨ c = 'ù' then 'u'
  else if c = 'ǖ' ∨ c = 'ǘ' ∨ c = 'ǚ' ∨ c = 'ǜ' ∨ c = 'ü' then 'v'
  else if c = 'ń' ∨ c = 'ň' ∨ c = 'ǹ' then 'n'
  else if c = 'ɡ' then 'g'
  else c

/-- Characters whose presence makes `split_initial_final` return `("", "")`
(the non-pinyin-format skip list in the source). -/
def pt_has_skip_char (s : String) : Bool :=
  s.data.any (fun c =>
    c = '(' || c = ')' || c = '（' || c = '）' || c = '·' || c = '，')

/-- The `standard_initials` of `pinyin_tools.split_initial_final`, after
`sorted(standard_initials, key=len, reverse=True)`.  The source set is iterated
in an unspecified order, but among initials of equal length the order is
irrelevant: two distinct prefixes of the same string and the same length cannot
both match.  We fix the two-letter initials first, then the one-letter ones. -/
def pt_sorted_initials : List String :=
  ["zh", "ch", "sh",
   "b", "p", "m", "f", "z", "c", "s", "d", "t", "n", "l",
   "r", "j", "q", "x", "h", "k", "g", "y", "w"]

/-- The cleaning steps of `pinyin_tools.split_initial_final`: lowercase and
strip, tone-mark replacement, digit removal.  (Lowercasing is ASCII-level, as
in Lean core; the accented letters in pinyin data are already lowercase.) -/
def pt_clean_pinyin (s : String) : String :=
  let lowered := py_strip (str_lower s)
  let replaced := String.mk (lowered.data.map pt_tone_char_map)
  String.mk (replaced.data.filter (fun c => ¬ c.isDigit))

/-- `pinyin_tools.split_initial_final`. -/
def split_initial_final (p : String) : String × String :=
  if p = "" then ("", "")
  else
    let pc0 := py_strip (str_lower p)
    if pt_has_skip_char pc0 then ("", "")
    else
      let pc := pt_clean_pinyin p
      match pt_sorted_initials.find? (fun i => str_starts pc i) with
      | some i => (i, pc.drop i.length)
      | none => ("", pc)

/-- `pinyin_tools.get_word_finals`; `cps` models the external
`get_pinyin_for_char` lookup over the pinyin searcher data. -/
def get_word_finals (cps : Char → List String) (w : String) : List String :=
  w.data.foldl
    (fun acc c =>
      (cps c).foldl
        (fun acc p =>
          let f := (split_initial_final p).2
          if f ≠ "" ∧ ¬ acc.contains f ∧ f.length ≤ 6 then acc ++ [f] else acc)
        acc)
    []

/-- One record of the pinyin searcher `words_data` as consumed by
`pinyin_tools._get_char_info` and the `_check_*` helpers.  The raw dicts carry
the keys `word`, `pinyin`, `pinyin_list`, `strokes` (a string), `radicals` and
`order_simple`. -/
structure PTCharRec where
  word : String
  pinyin : String
  pinyinList : List String
  strokes : String
  radicals : String
  orderSimple : List String

/-- `pinyin_tools._get_char_info`: first record whose `word` equals the char. -/
def pt_get_char_info (data : List PTCharRec) (c : Char) : Option PTCharRec :=
  data.find? (fun r => r.word = String.mk [c])

/-- `pinyin_tools._check_initial`. -/
def pt_check_initial (r : PTCharRec) (required : String) : Bool :=
  if r.pinyin = "" then false
  else (split_initial_final r.pinyin).1 = required

/-- Final normalization local to `pinyin_tools._check_final`: `ve` ↦ `ue`. -/
def pt_normalize_final (f : String) : String :=
  if f = "" then "" else if f = "ve" then "ue" else f

/-- `pinyin_tools._check_final`. -/
def pt_check_final (r : PTCharRec) (required : String) : Bool :=
  if r.pinyin = "" then false
  else pt_normalize_final (split_initial_final r.pinyin).2 = pt_normalize_final required

/-- Tone-mark/tone-digit pairs of `pinyin_tools._check_tone`. -/
def pt_tone_pairs : List (Char × String) :=
  [('ā', "1"), ('á', "2"), ('ǎ', "3"), ('à', "4"),
   ('ē', "1"), ('é', "2"), ('ě', "3"), ('è', "4"),
   ('ī', "1"), ('í', "2"), ('ǐ', "3"), ('ì', "4"),
   ('ō', "1"), ('ó', "2"), ('ǒ', "3"), ('ò', "4"),
   ('ū', "1"), ('ú', "2"), ('ǔ', "3"), ('ù', "4"),
   ('ǖ', "1"), ('ǘ', "2"), ('ǚ', "3"), ('ǜ', "4")]

/-- `pinyin_tools._check_tone`. -/
def pt_check_tone (r : PTCharRec) (required : String) : Bool :=
  if pt_tone_pairs.any (fun p => r.pinyin.data.contains p.1 && p.2 = required) then true
  else if required = "" then true
  else (r.pinyin.splitOn required).length > 1

/-- `pinyin_tools._check_stroke_count`.  The source reads the key `stroke`,
which the searcher records do not carry (they store `strokes`), so the dict
default `0` is always returned. -/
def pt_check_stroke_count (_ : PTCharRec) (required : Int) : Bool :=
  (0 : Int) = required

/-- `pinyin_tools._check_radical`.  The source reads the key `radical`, which
the searcher records do not carry (they store `radicals`), so the dict default
empty string is always returned. -/
def pt_check_radical (_ : PTCharRec) (required : String) : Bool :=
  "" = required

/-- `pinyin_tools._check_contains_stroke`. -/
def pt_check_contains_stroke (r : PTCharRec) (required : String)
    (position : Option Int) : Bool :=
  if r.orderSimple = [] then false
  else
    match position with
    | some pos =>
        if 0 ≤ pos - 1 ∧ pos - 1 < (r.orderSimple.length : Int) then
          r.orderSimple.getD (pos - 1).toNat "" = required
        else false
    | none => r.orderSimple.contains required

/-- `pinyin_tools.filter_words_by_advanced_criteria`.  Optional predicate
arguments are `Option`-typed as in the source signature; a `some ""` initial
behaves like the falsy empty string, mirrored by the emptiness tests. -/
def filter_words_by_advanced_criteria (data : List PTCharRec)
    (words : List String) (characterPosition : Nat)
    (initial final tone : Option String) (strokeCount : Option Int)
    (radical containsStroke : Option String) (strokePosition : Option Int) :
    List String :=
  words.filter (fun w =>
    if characterPosition ≥ w.length then false
    else
      match pt_get_char_info data (w.data.getD characterPosition 'x') with
      | none => false
      | some r =>
          (match initial with
           | some i => if i ≠ "" then pt_check_initial r i else true
           | none => true) &&
          (match final with
           | some f => if f ≠ "" then pt_check_final r f else true
           | none => true) &&
          (match tone with
           | some t => if t ≠ "" then pt_check_tone r t else true
           | none => true) &&
          (match strokeCount with
           | some sc => pt_check_stroke_count r sc
           | none => true) &&
          (match radical with
           | some rad => if rad ≠ "" then pt_check_radical r rad else true
           | none => true) &&
          (match containsStroke with
           | some cs => if cs ≠ "" then pt_check_contains_stroke r cs strokePosition else true
           | none => true))

/-! ## vocabulary_preprocessor.py -/

/-- Base-letter of the NFD decomposition of one character, restricted to the
pinyin alphabet handled by the data: `unicodedata.normalize('NFD', ...)`
decomposes each accented vowel into its base letter followed by combining marks
(category `Mn`, dropped by the filter in `_extract_initial_final`).  Note that
`ü` and `ǖǘǚǜ` decompose to base `u`, so the later `replace('ü', 'v')` never
fires. -/
def vp_nfd_base (c : Char) : Char :=
  if c = 'ā' ∨ c = 'á' ∨ c = 'ǎ' ∨ c = 'à' then 'a'
  else if c = 'ē' ∨ c = 'é' ∨ c = 'ě' ∨ c = 'è' then 'e'
  else if c = 'ī' ∨ c = 'í' ∨ c = 'ǐ' ∨ c = 'ì' then 'i'
  else if c = 'ō' ∨ c = 'ó' ∨ c = 'ǒ' ∨ c = 'ò' then 'o'
  else if c = 'ū' ∨ c = 'ú' ∨ c = 'ǔ' ∨ c = 'ù' then 'u'
  else if c = 'ǖ' ∨ c = 'ǘ' ∨ c = 'ǚ' ∨ c = 'ǜ' ∨ c = 'ü' then 'u'
  else if c = 'ń' ∨ c = 'ň' ∨ c = 'ǹ' then 'n'
  else if c = 'ḿ' then 'm'
  else c

/-- The character filter of `_extract_initial_final`: keep alphabetic base
characters and the script letter `ɡ` (U+0261).  (`str.isalpha` is
unicode-wide in Python; on the romanized-syllable alphabet it coincides with
ASCII alphabeticity plus `ɡ`.) -/
def vp_kept_char (c : Char) : Bool := c.isAlpha || c = 'ɡ'

/-- The cleaning step of `vocabulary_preprocessor._extract_initial_final`:
NFD-decompose, drop combining marks, keep alphabetic characters, lowercase,
then the (dead) `ü → v` replacement. -/
def vp_clean_pinyin (s : String) : String :=
  let decomposed := (s.data.map vp_nfd_base).filter vp_kept_char
  let lowered := str_lower (String.mk decomposed)
  str_replace_char lowered 'ü' 'v'

/-- The initials list of `vocabulary_preprocessor._extract_initial_final`
after `sorted(initials, key=len, reverse=True)` (a stable sort of the written
list, which contains the script `ɡ` and no ASCII `g`). -/
def vp_sorted_initials : List String :=
  ["zh", "ch", "sh",
   "b", "p", "m", "f", "d", "t", "n", "l", "ɡ", "k", "h", "j", "q", "x",
   "z", "c", "s", "r", "y", "w"]

/-- The `final_mappings` equivalence table applied by
`_extract_initial_final` before returning the final. -/
def vp_final_mappings (f : String) : String :=
  if f = "uei" then "ui" else if f = "iou" then "iu" else if f = "ue" then "ve" else f

/-- `vocabulary_preprocessor._extract_initial_final`. -/
def extract_initial_final (p : String) : String × String :=
  let pc := vp_clean_pinyin p
  match vp_sorted_initials.find? (fun i => str_starts pc i) with
  | some i => (i, vp_final_mappings (pc.drop i.length))
  | none => ("", vp_final_mappings pc)

/-- Tone digit of one character per the `tone_map` of
`vocabulary_preprocessor._extract_tone` (also used by the v3 searcher). -/
def vp_tone_digit (c : Char) : Option Char :=
  if c = 'ā' ∨ c = 'ē' ∨ c = 'ī' ∨ c = 'ō' ∨ c = 'ū' ∨ c = 'ǖ' then some '1'
  else if c = 'á' ∨ c = 'é' ∨ c = 'í' ∨ c = 'ó' ∨ c = 'ú' ∨ c = 'ǘ' ∨ c = 'ń' ∨ c = 'ḿ' then some '2'
  else if c = 'ǎ' ∨ c = 'ě' ∨ c = 'ǐ' ∨ c = 'ǒ' ∨ c = 'ǔ' ∨ c = 'ǚ' ∨ c = 'ň' then some '3'
  else if c = 'à' ∨ c = 'è' ∨ c = 'ì' ∨ c = 'ò' ∨ c = 'ù' ∨ c = 'ǜ' ∨ c = 'ǹ' then some '4'
  else none

/-- `vocabulary_preprocessor._extract_tone`: first tone mark found, else a
trailing digit, else the neutral tone `"5"`. -/
def vp_extract_tone (p : String) : String :=
  match p.data.findSome? vp_tone_digit with
  | some d => String.mk [d]
  | none =>
      if p ≠ "" ∧ p.back.isDigit then String.mk [p.back] else "5"

/-- One entry of `word_pinyin_pairs` (dict iteration order = list order):
a word together with its stored pinyin list (the preprocessor stores one
space-separated reading per word). -/
structure VEntry where
  word : String
  pinyins : List String
deriving DecidableEq

/-- The character-info table built by `_process_character_data`: keys
`pinyin`, `pinyin_list`, `strokes`, `radical`, `order_simple`. -/
structure VCharInfo where
  pinyin : String
  pinyinList : List String
  strokes : Nat
  radical : String
  orderSimple : List String

/-- Python `str.split()` on the space-joined pinyin of a word. -/
def split_ws (s : String) : List String :=
  (py_split_char (fun c => c = ' ') s).filter (fun t => t ≠ "")

/-- The per-character pinyin tokens used for indexing a lexicon entry
(`pinyins[0].split()`). -/
def entry_parts (e : VEntry) : List String := split_ws (e.pinyins.headD "")

/-- Whether `_build_query_indexes` reaches the first-character indexing of an
entry (`if not pinyins: continue`, `if not pinyin_parts: continue`,
`if first_pinyin:`). -/
def entry_indexed (e : VEntry) : Bool :=
  e.pinyins ≠ [] && entry_parts e ≠ [] && py_strip ((entry_parts e).headD "") ≠ ""

/-- Decomposed (initial, final) of the first character of an entry. -/
def entry_first_if (e : VEntry) : String × String :=
  extract_initial_final (py_strip ((entry_parts e).headD ""))

/-- The key under which `_build_query_indexes` files an entry in
`words_by_final` (only non-empty finals are indexed). -/
def final_key_of (e : VEntry) : Option String :=
  if entry_indexed e ∧ (entry_first_if e).2 ≠ "" then some (entry_first_if e).2 else none

/-- The key under which `_build_query_indexes` files an entry in
`words_by_initial`. -/
def initial_key_of (e : VEntry) : Option String :=
  if entry_indexed e ∧ (entry_first_if e).1 ≠ "" then some (entry_first_if e).1 else none

/-- `words_by_final` lookup: `some` exactly when the key is present
(at least one word filed under it), mirroring `final in self.words_by_final`. -/
def words_by_final_get (lex : List VEntry) (f : String) : Option (List String) :=
  let ws := (lex.filter (fun e => final_key_of e = some f)).map (fun e => e.word)
  if ws = [] then none else some ws

/-- `words_by_initial` lookup. -/
def words_by_initial_get (lex : List VEntry) (i : String) : Option (List String) :=
  let ws := (lex.filter (fun e => initial_key_of e = some i)).map (fun e => e.word)
  if ws = [] then none else some ws

/-- `vocabulary_preprocessor.get_all_words` (dict keys in insertion order). -/
def get_all_words (lex : List VEntry) : List String := lex.map (fun e => e.word)

/-- `vocabulary_preprocessor.get_word_pinyin` (dict lookup; keys unique). -/
def get_word_pinyin (lex : List VEntry) (w : String) : List String :=
  match lex.find? (fun e => e.word = w) with
  | some e => e.pinyins
  | none => []

/-- `words_by_length` lookup. -/
def words_by_length_get (lex : List VEntry) (n : Nat) : List String :=
  (lex.filter (fun e => e.pinyins ≠ [] ∧ e.word.length = n)).map (fun e => e.word)

/-- `vocabulary_preprocessor.filter_words_by_length`. -/
def filter_words_by_length (lex : List VEntry) (minLen maxLen : Nat) : List String :=
  (List.range' minLen (maxLen + 1 - minLen)).flatMap (words_by_length_get lex)

/-- `vocabulary_preprocessor.filter_words_by_initial_fast`. -/
def filter_words_by_initial_fast (lex : List VEntry) (i : String) : List String :=
  (words_by_initial_get lex i).getD []

/-- `vocabulary_preprocessor._normalize_final`: `ɡ → g`, then `ve → ue`. -/
def vp_normalize_final (f : String) : String :=
  if f = "" then ""
  else
    let n := str_replace_char f 'ɡ' 'g'
    if n = "ve" then "ue" else n

/-- `vocabulary_preprocessor._build_reversed_pinyin`: per character position,
final first (`final_initial`), joined with spaces. -/
def build_reversed_pinyin (parts : List String) : String :=
  " ".intercalate ((parts.filter (fun p => p ≠ "")).map (fun p =>
    let (i, f) := extract_initial_final (py_strip p)
    if f ≠ "" then (if i ≠ "" then f ++ "_" ++ i else f) else py_strip p))

/-- `sorted_words_by_reversed_pinyin`: `(word, reversed_pinyin)` pairs sorted
by the reversed pinyin (Python `sorted` = stable mergesort by the key). -/
def sorted_words_by_reversed_pinyin (lex : List VEntry) : List (String × String) :=
  (((lex.filter (fun e => e.pinyins ≠ [] ∧ entry_parts e ≠ [])).map
    (fun e => (e.word, build_reversed_pinyin (entry_parts e)))).mergeSort
    (fun a b => a.2 ≤ b.2))

/-- Python `bisect.bisect_left` on a sorted list: number of elements strictly
below the key. -/
def bisect_left (l : List String) (x : String) : Nat :=
  (l.filter (fun y => y < x)).length

/-- The scan loop of `_binary_search_by_final` over the candidate slice:
verify the reversed-pinyin prefix and the actual normalized first final, with
the early `break` when even the first character stops matching. -/
def bsf_scan (lex : List VEntry) (nf : String) :
    List (String × String) → List String → List String
  | [], acc => acc
  | (w, rp) :: rest, acc =>
      if str_starts rp nf then
        let ok :=
          match get_word_pinyin lex w with
          | [] => false
          | p :: _ =>
              match split_ws p with
              | [] => false
              | t :: _ => vp_normalize_final (extract_initial_final t).2 = nf
        bsf_scan lex nf rest (if ok then acc ++ [w] else acc)
      else if ¬ str_starts rp (nf.take 1) then acc
      else bsf_scan lex nf rest acc

/-- The upper-bound key of `_binary_search_by_final`
(`normalized_final[:-1] + chr(ord(normalized_final[-1]) + 1)`). -/
def bsf_next_key (nf : String) : String :=
  if nf ≠ "" then (nf.dropRight 1).push (Char.ofNat (nf.back.toNat + 1)) else "z"

/-- Core of `_binary_search_by_final` after normalizing the target. -/
def bsf_core (lex : List VEntry) (nf : String) : List String :=
  let pairs := sorted_words_by_reversed_pinyin lex
  let pys := pairs.map (fun x => x.2)
  let left := bisect_left pys nf
  let right := bisect_left pys (bsf_next_key nf)
  bsf_scan lex nf ((pairs.drop left).take (right - left)) []

/-- `vocabulary_preprocessor._binary_search_by_final`. -/
def binary_search_by_final (lex : List VEntry) (f : String) : List String :=
  if sorted_words_by_reversed_pinyin lex = [] ∨ f = "" then []
  else bsf_core lex (vp_normalize_final f)

/-- The lookup-normalization table of `filter_words_by_final_fast`
(ASCII spellings to the stored `ɡ` spellings, plus `ue/ve → ve`). -/
def vp_lookup_mappings (f : String) : String :=
  if f = "ang" then "anɡ" else if f = "eng" then "enɡ"
  else if f = "ing" then "inɡ" else if f = "ong" then "onɡ"
  else if f = "iang" then "ianɡ" else if f = "uang" then "uanɡ"
  else if f = "ueng" then "uenɡ" else if f = "iong" then "ionɡ"
  else if f = "ue" then "ve" else if f = "ve" then "ve" else f

/-- `vocabulary_preprocessor.filter_words_by_final_fast`: index hit, then
normalized-key index hit, then binary search over reversed pinyin. -/
def filter_words_by_final_fast (lex : List VEntry) (f : String) : List String :=
  match words_by_final_get lex f with
  | some ws => ws
  | none =>
      match words_by_final_get lex (vp_lookup_mappings f) with
      | some ws => ws
      | none => binary_search_by_final lex f

/-! ## qwen_synonym_searcher_v3.py: environment and similarity pipeline -/

/-- The searcher environment: the preprocessor lexicon and character table,
the pinyin-searcher character pinyins used by `pinyin_tools`, the embedding
capability (`qwen_available` and `encode`, which returns `none` on failure as
`QwenEmbeddingClient.encode` does), and an opaque renderer for the
`"{:.1f}%"` float formatting of the presentation strings (the core never
branches on its output). -/
structure SearchEnv where
  lex : List VEntry
  charInfo : Char → Option VCharInfo
  charPinyins : Char → List String
  qwenAvailable : Bool
  encode : List String → Option (List (List ℝ))
  fmtPercent : ℝ → String

/-- `np.dot` on the modelled vectors (crops to the shorter vector). -/
def vdot (v w : List ℝ) : ℝ := (List.zipWith (fun a b => a * b) v w).sum

/-- `np.linalg.norm`. -/
noncomputable def vnorm (v : List ℝ) : ℝ := Real.sqrt (vdot v v)

/-- Cosine similarity as computed in `_compute_batch_similarities_optimized`
(real division; a zero denominator yields `0` under Lean's convention). -/
noncomputable def cosine_sim (v w : List ℝ) : ℝ := vdot v w / (vnorm v * vnorm w)

/-- The fixed-size chunks `words_to_encode[i:i+batch_size]` for
`i in range(0, len(words_to_encode), batch_size)`. -/
def encode_batches (bs : Nat) (words : List String) : List (List String) :=
  (List.range ((words.length + bs - 1) / bs)).map
    (fun j => (words.drop (j * bs)).take bs)

/-- The embedding-accumulation loop shared by
`_compute_batch_similarities_optimized` and `_compute_batch_similarities_fallback`:
a failed chunk (`encode` returns `None`) is skipped. -/
def gather_embeddings (env : SearchEnv) (bs : Nat) (words : List String) :
    List (List ℝ) :=
  (encode_batches bs words).foldl
    (fun acc b => match env.encode b with
      | none => acc
      | some es => acc ++ es)
    []

/-- The common tail of both batch-similarity functions: abort with `[]` when
the number of collected embeddings differs from the number of encoded words,
otherwise pair each candidate with the cosine similarity of its embedding
against the query embedding. -/
noncomputable def batch_similarities_body (env : SearchEnv) (bs : Nat)
    (queryWord : String) (candidates : List String) : List (String × ℝ) :=
  let wordsToEncode := queryWord :: candidates
  let allEmbeddings := gather_embeddings env bs wordsToEncode
  if allEmbeddings.length ≠ wordsToEncode.length then []
  else
    let queryEmbedding := allEmbeddings.headD []
    let candidateEmbeddings := allEmbeddings.tail
    (candidates.enum.filter (fun p => p.1 < candidateEmbeddings.length)).map
      (fun p => (p.2, cosine_sim queryEmbedding (candidateEmbeddings.getD p.1 [])))

/-- `_compute_batch_similarities_optimized` (batch size 25; its exception
handler is unreachable in the modelled surface). -/
noncomputable def compute_batch_similarities_optimized (env : SearchEnv)
    (queryWord : String) (candidates : List String) : List (String × ℝ) :=
  batch_similarities_body env 25 queryWord candidates

/-- `_compute_batch_similarities_fallback` (batch size 20). -/
noncomputable def compute_batch_similarities_fallback (env : SearchEnv)
    (queryWord : String) (candidates : List String) : List (String × ℝ) :=
  batch_similarities_body env 20 queryWord candidates

/-- `similarities.sort(key=lambda x: x[1], reverse=True)`: stable descending
sort by score (Python list.sort is a stable mergesort). -/
noncomputable def sort_by_score_desc (l : List (String × ℝ)) : List (String × ℝ) :=
  l.mergeSort (fun a b => decide (b.2 ≤ a.2))

/-- `_compute_similarities_and_sort`: truncate to 1000 candidates, score,
stable-sort descending, return the top `k` words and scores. -/
noncomputable def compute_similarities_and_sort (env : SearchEnv)
    (queryWord : String) (candidates : List String) (k : Nat) :
    List String × List ℝ :=
  if candidates = [] then ([], [])
  else
    let candidates := if candidates.length > 1000 then candidates.take 1000 else candidates
    let similarities := compute_batch_similarities_optimized env queryWord candidates
    if similarities = [] then ([], [])
    else
      let sorted := sort_by_score_desc similarities
      let topK := sorted.take k
      (topK.map (fun p => p.1), topK.map (fun p => p.2))

/-! ## qwen_synonym_searcher_v3.py: constraint verification -/

/-- One per-position filter dict of the advanced mode.  Empty strings and a
zero stroke count model absent/falsy fields; a falsy dict (`{}`/`None` slot)
is modelled as `none` at the use sites. -/
structure AdvSlot where
  initial : String
  final : String
  tone : String
  strokeCount : Nat
  radical : String
  containsStroke : String
  strokePosition : Nat
deriving DecidableEq

/-- Normalization local to the v3 searcher final comparisons
(`ɡ → g`, then `ve → ue`). -/
def v3_normalize_final (f : String) : String :=
  if f = "" then ""
  else
    let n := str_replace_char f 'ɡ' 'g'
    if n = "ve" then "ue" else n

/-- The modelled fragment of Python list-literal parsing used by
`_verify_word_conditions` and `_extract_tone` on strings like `"['xué']"`:
strip the brackets, split on `", "`, unquote the single-quoted items.
Returns `none` (the `except` path) when an item is not single-quoted. -/
def py_parse_str_list (s : String) : Option (List String) :=
  let inner := (s.drop 1).dropRight 1
  let items := inner.splitOn ", "
  if items.all (fun it => it.length ≥ 2 ∧ str_starts it "\x27" ∧ str_ends it "\x27") then
    some (items.map (fun it => (it.drop 1).dropRight 1))
  else none

/-- The `except` fallback of the bracket handling:
`s.strip("[]'\"").replace("'", "").replace('"', '')`. -/
def py_strip_quotes (s : String) : String :=
  let isStripped := fun (c : Char) => c = '[' ∨ c = ']' ∨ c = '\x27' ∨ c = '"'
  let stripped := String.mk ((s.data.dropWhile isStripped).reverse.dropWhile isStripped |>.reverse)
  String.mk (stripped.data.filter (fun c => ¬ (c = '\x27' ∨ c = '"')))

/-- The bracket-format handling of `_verify_word_conditions`: a parsed
non-empty list is space-joined; a parsed empty/ill-formed literal leaves the
string unchanged or falls back to quote stripping. -/
def v3_parse_pinyin_string (s : String) : String :=
  if str_starts s "[" ∧ str_ends s "]" then
    match py_parse_str_list s with
    | some (x :: xs) => " ".intercalate (x :: xs)
    | some [] => s
    | none => py_strip_quotes s
  else s

/-- `QwenSynonymSearcherV3._extract_tone` on a string argument: unwrap a
bracketed list literal, then first tone mark, then trailing digit, else `"5"`. -/
def v3_extract_tone (p : String) : String :=
  let clean :=
    if str_starts p "[" ∧ str_ends p "]" then
      match py_parse_str_list p with
      | some (x :: _) => x
      | some [] => py_strip_quotes p
      | none => py_strip_quotes p
    else py_strip p
  match clean.data.findSome? vp_tone_digit with
  | some d => String.mk [d]
  | none =>
      if clean ≠ "" ∧ clean.back.isDigit then String.mk [clean.back] else "5"

/-- `_verify_pinyin_conditions`: initial (with the `g → ɡ` input mapping),
normalized final (with the redundant explicit `ue ↔ ve` cross-check), tone. -/
def verify_pinyin_conditions (charPinyin : String) (s : AdvSlot) : Bool :=
  let (initial, final) := extract_initial_final charPinyin
  let initialOk :=
    if py_strip s.initial ≠ "" then
      let si := if py_strip s.initial = "g" then "ɡ" else py_strip s.initial
      initial = si
    else true
  let finalOk :=
    if py_strip s.final ≠ "" then
      let a := v3_normalize_final final
      let r := v3_normalize_final (py_strip s.final)
      if a ≠ r ∧ ¬ ((a = "ue" ∧ r = "ve") ∨ (a = "ve" ∧ r = "ue")) then false else true
    else true
  let toneOk :=
    if py_strip s.tone ≠ "" then v3_extract_tone charPinyin = s.tone else true
  initialOk && finalOk && toneOk

/-- `_verify_stroke_conditions`. -/
def verify_stroke_conditions (orderSimple : List String) (s : AdvSlot) : Bool :=
  if s.containsStroke ≠ "" then
    if s.strokePosition ≠ 0 then
      let pos := s.strokePosition - 1
      if pos ≥ orderSimple.length ∨ orderSimple.getD pos "" ≠ s.containsStroke then false
      else true
    else orderSimple.contains s.containsStroke
  else true

/-- `_verify_character_conditions`.  The source reads `char_info.get('stroke', 0)`
while the table stores the key `strokes`, so the stroke comparison always sees
the default `0`. -/
def verify_character_conditions (env : SearchEnv) (c : Char) (s : AdvSlot) : Bool :=
  match env.charInfo c with
  | none =>
      let hasRequired := s.strokeCount ≠ 0 ∨ py_strip s.radical ≠ "" ∨ py_strip s.containsStroke ≠ ""
      ¬ hasRequired
  | some info =>
      let strokeOk :=
        if s.strokeCount > 0 then
          let actualStroke : Nat := 0
          actualStroke = s.strokeCount
        else true
      let radicalOk :=
        if py_strip s.radical ≠ "" then info.radical = py_strip s.radical else true
      let strokeCondOk :=
        if py_strip s.containsStroke ≠ "" then verify_stroke_conditions info.orderSimple s
        else true
      strokeOk && radicalOk && strokeCondOk

/-- `_verify_word_conditions`: resolve the stored pinyin, unwrap the bracket
format, then verify each constrained position against the pinyin token and the
character metadata. -/
def verify_word_conditions (env : SearchEnv) (w : String)
    (characterFilters : List (Option AdvSlot)) : Bool :=
  match get_word_pinyin env.lex w with
  | [] => false
  | p :: _ =>
      let pinyinString := v3_parse_pinyin_string p
      let pinyinParts := split_ws pinyinString
      characterFilters.enum.all (fun if_ =>
        match if_.2 with
        | none => true
        | some s =>
            decide (if_.1 < w.length) && decide (if_.1 < pinyinParts.length) &&
            verify_pinyin_conditions (pinyinParts.getD if_.1 "") s &&
            verify_character_conditions env (w.data.getD if_.1 'x') s)

/-- The `max_position` computed by `_verify_advanced_conditions`: one past the
last truthy filter slot. -/
def adv_max_position : List (Option AdvSlot) → Nat → Nat → Nat
  | [], _, m => m
  | o :: rest, i, m => adv_max_position rest (i + 1) (if o.isSome then i + 1 else m)

/-- `_verify_advanced_conditions`: drop words shorter than the last constrained
position, then verify every condition. -/
def verify_advanced_conditions (env : SearchEnv) (candidates : List String)
    (characterFilters : List (Option AdvSlot)) : List String :=
  let maxPosition := adv_max_position characterFilters 0 0
  candidates.filter (fun w =>
    decide (maxPosition ≤ w.length) && verify_word_conditions env w characterFilters)

/-! ## qwen_synonym_searcher_v3.py: candidate retrieval and search facade -/

/-- The Python `AttributeError` message raised at
`self.vocab_preprocessor.binary_search_by_pinyin_prefix(primary_final)`:
no method of that name is defined on `VocabularyPreprocessor` (its intended
body sits after the `return` statement of `binary_search_by_radical`). -/
def py_attribute_error_msg : String :=
  "\x27VocabularyPreprocessor\x27 object has no attribute \x27binary_search_by_pinyin_prefix\x27"

/-- The first usable final condition of `_get_candidates_by_binary_search`
(`if final and final.strip()`). -/
def primary_final (characterFinals : List String) : Option String :=
  (characterFinals.find? (fun f => py_strip f ≠ "")).map (fun f => py_strip f)

/-- `QwenSynonymSearcherV3._get_candidates_by_binary_search`: final-index
lookup, with the expansion branch for small results raising `AttributeError`
because `binary_search_by_pinyin_prefix` does not exist. -/
def get_candidates_by_binary_search (env : SearchEnv)
    (characterFinals : List String) : Except String (List String) :=
  match primary_final characterFinals with
  | none => .ok (get_all_words env.lex)
  | some f =>
      let candidates := filter_words_by_final_fast env.lex f
      if candidates.length < 100 then .error py_attribute_error_msg
      else .ok candidates

/-- The valid-final filter of `_verify_candidates_conditions`
(`all(c.isalpha() or c in 'üɡ' for c in final)`). -/
def v3_clean_final (f : String) : Bool :=
  f.data.all (fun c => c.isAlpha || c = 'ü' || c = 'ɡ')

/-- The per-word test of `_verify_candidates_conditions`: length match,
cleaned real-time finals, position-by-position normalized comparison. -/
def v3_word_matches_finals (env : SearchEnv) (characterFinals : List String)
    (w : String) : Bool :=
  if w.length ≠ characterFinals.length then false
  else
    let actualFinals := get_word_finals env.charPinyins w
    let cleanFinals := actualFinals.filter (fun f => f ≠ "" && v3_clean_final f)
    if cleanFinals.length ≠ characterFinals.length then false
    else
      (characterFinals.zip cleanFinals).all (fun rf =>
        if py_strip rf.1 ≠ "" then
          v3_normalize_final rf.2 = v3_normalize_final (py_strip rf.1)
        else true)

/-- The capped verification loop of `_verify_candidates_conditions`: append
matching words and stop as soon as 100 are collected. -/
def verify_finals_loop (env : SearchEnv) (characterFinals : List String) :
    List String → List String → List String
  | [], acc => acc
  | w :: rest, acc =>
      if v3_word_matches_finals env characterFinals w then
        let acc := acc ++ [w]
        if acc.length ≥ 100 then acc else verify_finals_loop env characterFinals rest acc
      else verify_finals_loop env characterFinals rest acc

/-- `QwenSynonymSearcherV3._verify_candidates_conditions`: truncate to the
first 1000 candidates, then run the capped verification loop. -/
def verify_candidates_conditions (env : SearchEnv) (candidates : List String)
    (characterFinals : List String) : List String :=
  let candidates := if candidates.length > 1000 then candidates.take 1000 else candidates
  verify_finals_loop env characterFinals candidates []

/-- `QwenSynonymSearcherV3._efficient_filter_by_finals`. -/
def efficient_filter_by_finals (env : SearchEnv) (queryWord : String)
    (characterFinals : List String) : Except String (List String) := do
  let initialCandidates ← get_candidates_by_binary_search env characterFinals
  if initialCandidates = [] then return []
  let verified := verify_candidates_conditions env initialCandidates characterFinals
  if py_strip queryWord ≠ "" then
    return verified.filter (fun w => w ≠ queryWord)
  else
    return verified

/-- `QwenSynonymSearcherV3._filter_candidates_by_finals` (the preprocessor is
always present in the modelled environment). -/
def filter_candidates_by_finals (env : SearchEnv) (queryWord : String)
    (characterFinals : List String) : Except String (List String) :=
  if characterFinals = [] ∨ characterFinals.all (fun f => f = "") then
    let base := filter_words_by_length env.lex 2 10
    let base := if py_strip queryWord ≠ "" then base.filter (fun w => w ≠ queryWord) else base
    .ok (base.take 1000)
  else efficient_filter_by_finals env queryWord characterFinals

/-- `QwenSynonymSearcherV3._filter_candidates_by_length_only`. -/
def filter_candidates_by_length_only (env : SearchEnv) (queryWord : String) :
    List String :=
  let base := filter_words_by_length env.lex 2 10
  let base := if py_strip queryWord ≠ "" then base.filter (fun w => w ≠ queryWord) else base
  base.take 1000

/-- `QwenSynonymSearcherV3._filter_by_length`. -/
def filter_by_length (candidates : List String)
    (minLength maxLength : Option Nat) : List String :=
  if minLength = none ∧ maxLength = none then candidates
  else candidates.filter (fun w =>
    (match minLength with | some m => decide (m ≤ w.length) | none => true) &&
    (match maxLength with | some m => decide (w.length ≤ m) | none => true))

/-- The access-path kinds of the v3 advanced retrieval. -/
inductive V3PathType where
  | tfinal
  | tinitial
deriving DecidableEq

/-- The selection loop of
`QwenSynonymSearcherV3._get_candidates_by_advanced_binary_search`: the loop
`break`s at the first truthy `final`, while a truthy `initial` (checked with
no priority guard and no break) keeps overwriting the previous pick. -/
def v3_select_best : List (Option AdvSlot) → Nat →
    Option (Nat × V3PathType × String) → Option (Nat × V3PathType × String)
  | [], _, best => best
  | none :: rest, i, best => v3_select_best rest (i + 1) best
  | some s :: rest, i, best =>
      if s.final ≠ "" then some (i, .tfinal, s.final)
      else if s.initial ≠ "" then v3_select_best rest (i + 1) (some (i, .tinitial, s.initial))
      else v3_select_best rest (i + 1) best

/-- `QwenSynonymSearcherV3._get_candidates_by_advanced_binary_search`. -/
def get_candidates_by_advanced_binary_search (env : SearchEnv)
    (characterFilters : List (Option AdvSlot)) : List String :=
  match v3_select_best characterFilters 0 none with
  | none => get_all_words env.lex
  | some (_, .tfinal, v) => filter_words_by_final_fast env.lex v
  | some (_, .tinitial, v) =>
      let searchInitial := if v = "g" then "ɡ" else v
      filter_words_by_initial_fast env.lex searchInitial

/-- `QwenSynonymSearcherV3._efficient_advanced_filter`. -/
def efficient_advanced_filter (env : SearchEnv) (queryWord : String)
    (characterFilters : List (Option AdvSlot)) : List String :=
  let initialCandidates := get_candidates_by_advanced_binary_search env characterFilters
  if initialCandidates = [] then []
  else
    let verified := verify_advanced_conditions env initialCandidates characterFilters
    verified.filter (fun w => w ≠ queryWord)

/-- `QwenSynonymSearcherV3._filter_candidates_by_advanced_criteria` (the
preprocessor is always present in the modelled environment). -/
def filter_candidates_by_advanced_criteria (env : SearchEnv) (queryWord : String)
    (characterFilters : Option (List (Option AdvSlot))) : List String :=
  match characterFilters with
  | none =>
      let base := (filter_words_by_length env.lex 2 10).filter (fun w => w ≠ queryWord)
      base.take 1000
  | some [] =>
      let base := (filter_words_by_length env.lex 2 10).filter (fun w => w ≠ queryWord)
      base.take 1000
  | some cf => efficient_advanced_filter env queryWord cf

/-- `QwenSynonymSearcherV3._is_chinese` (the CJK unified block regex). -/
def is_chinese (s : String) : Bool :=
  s.data.any (fun c => 0x4e00 ≤ c.toNat ∧ c.toNat ≤ 0x9fff)

/-- Truthiness of the `character_filters` argument (`if character_filters:`),
true for any non-empty list. -/
def cf_truthy (cf : Option (List (Option AdvSlot))) : Bool :=
  match cf with
  | some (_ :: _) => true
  | _ => false

/-- `any(f for f in character_filters)`: some slot dict is truthy. -/
def cf_any (cf : Option (List (Option AdvSlot))) : Bool :=
  match cf with
  | some l => l.any (fun o => o.isSome)
  | none => false

/-- `character_finals and any(f for f in character_finals)`. -/
def fins_any (fins : Option (List String)) : Bool :=
  match fins with
  | some l => l.any (fun f => f ≠ "")
  | none => false

/-- The unified candidate-filtering step of `search_synonyms` (advanced
filters, else simple finals, else pure length filtering). -/
def eligible_words_exc (env : SearchEnv) (word : String)
    (fins : Option (List String)) (cf : Option (List (Option AdvSlot))) :
    Except String (List String) :=
  if cf_truthy cf then .ok (filter_candidates_by_advanced_criteria env word cf)
  else if fins_any fins then filter_candidates_by_finals env word (fins.getD [])
  else .ok (filter_candidates_by_length_only env word)

/-- Python `f"{i:2d}"`: decimal, right-aligned to width 2. -/
def fmt2d (n : Nat) : String :=
  let s := toString n
  if s.length < 2 then " " ++ s else s

/-- The per-slot fragment of the advanced-filter description in
`_build_unified_result_message`. -/
def slot_filter_parts (s : AdvSlot) : List String :=
  (if s.initial ≠ "" then ["声母=" ++ s.initial] else []) ++
  (if s.final ≠ "" then ["韵母=" ++ s.final] else []) ++
  (if s.tone ≠ "" then ["声调=" ++ s.tone] else []) ++
  (if s.strokeCount ≠ 0 then ["笔画=" ++ toString s.strokeCount] else []) ++
  (if s.radical ≠ "" then ["部首=" ++ s.radical] else []) ++
  (if s.containsStroke ≠ "" then
    (if s.strokePosition ≠ 0 then
      ["第" ++ toString s.strokePosition ++ "笔=" ++ s.containsStroke]
     else ["含笔画=" ++ s.containsStroke])
   else [])

/-- `QwenSynonymSearcherV3._build_unified_result_message`.  The similarity
percentage rendering (`f"{percentage:.1f}%"`) is delegated to the opaque
`fmtPercent` field of the environment; the core never branches on it. -/
noncomputable def build_unified_result_message (env : SearchEnv) (queryWord : String)
    (synonyms : List String) (similarities : List ℝ)
    (fins : Option (List String)) (cf : Option (List (Option AdvSlot)))
    (sortedFlag : Bool) (minLength maxLength : Option Nat) : String :=
  if synonyms = [] then "❌ 未找到相似词汇"
  else
    let hasQueryWord := py_strip queryWord ≠ ""
    let header :=
      (if hasQueryWord then ["🔍 查询词汇: " ++ queryWord]
       else ["🔍 纯筛选模式（无查询词）"]) ++
      (if sortedFlag ∧ hasQueryWord then
        ["📊 数据来源: Qwen3-Embedding-0.6B (1024维向量)",
         "⚡ 算法: 二分查找筛选 + 语义相似度排序"]
       else
        ["📊 数据来源: 预处理词库索引",
         "⚡ 算法: 二分查找筛选（未排序）"])
    let filtersLines :=
      if cf_truthy cf then
        let filtersInfo := ((cf.getD []).enum.filterMap (fun io =>
          match io.2 with
          | none => none
          | some s =>
              let parts := slot_filter_parts s
              if parts = [] then none
              else some ("第" ++ toString (io.1 + 1) ++ "字(" ++ ", ".intercalate parts ++ ")")))
        if filtersInfo = [] then [] else ["🎯 高级筛选: " ++ ", ".intercalate filtersInfo]
      else if fins_any fins then
        let finalsInfo := ((fins.getD []).enum.filterMap (fun io =>
          if io.2 ≠ "" then
            some ("第" ++ toString (io.1 + 1) ++ "字=\x27" ++ io.2 ++ "\x27")
          else none))
        if finalsInfo = [] then [] else ["🎵 韵母筛选: " ++ ", ".intercalate finalsInfo]
      else []
    let lengthLines :=
      if minLength.isSome ∨ maxLength.isSome then
        let lengthInfo :=
          (match minLength with | some m => ["最小长度=" ++ toString m] | none => []) ++
          (match maxLength with | some m => ["最大长度=" ++ toString m] | none => [])
        ["📏 长度筛选: " ++ ", ".intercalate lengthInfo]
      else []
    let countLine :=
      if sortedFlag ∧ hasQueryWord then
        ["📝 找到 " ++ toString synonyms.length ++ " 个近义词（按相似度排序）:"]
      else
        ["📝 找到 " ++ toString synonyms.length ++ " 个匹配词（筛选结果）:"]
    let items := ((synonyms.zip similarities).enum.map (fun ip =>
      let i := ip.1 + 1
      if sortedFlag ∧ hasQueryWord ∧ 0 < ip.2.2 then
        fmt2d i ++ ". " ++ ip.2.1 ++ " (" ++ env.fmtPercent ip.2.2 ++ ")"
      else
        fmt2d i ++ ". " ++ ip.2.1))
    "\n".intercalate (header ++ filtersLines ++ lengthLines ++ countLine ++ [""] ++ items)

/-- `QwenSynonymSearcherV3.search_synonyms`: the unified entry point.  The
surrounding `try`/`except` converts any internal error (in the modelled
surface, only the missing-method `AttributeError`) into the error triple. -/
noncomputable def search_synonyms (env : SearchEnv) (word : String) (k : Nat)
    (fins : Option (List String)) (cf : Option (List (Option AdvSlot)))
    (minLength maxLength : Option Nat) : List String × List ℝ × String :=
  let hasQueryWord := py_strip word ≠ ""
  if hasQueryWord ∧ ¬ is_chinese (py_strip word) then
    ([], [], "⚠️ 输入的词汇不是中文")
  else if ¬ hasQueryWord ∧
      ¬ (fins_any fins ∨ cf_any cf ∨ minLength.isSome ∨ maxLength.isSome) then
    ([], [], "❌ 请输入查询词汇或设置筛选条件")
  else
    let w := if hasQueryWord then py_strip word else word
    match eligible_words_exc env w fins cf with
    | .error e => ([], [], "❌ 查询失败: " ++ e)
    | .ok eligible0 =>
        let eligible :=
          if minLength.isSome ∨ maxLength.isSome then
            filter_by_length eligible0 minLength maxLength
          else eligible0
        if eligible = [] then
          if fins_any fins then ([], [], "🎵 没有找到符合韵母条件的词汇")
          else if cf_truthy cf then ([], [], "🎯 没有找到符合筛选条件的词汇")
          else ([], [], "❌ 没有找到候选词汇")
        else if hasQueryWord ∧ env.qwenAvailable then
          let sr := compute_similarities_and_sort env w eligible k
          if sr.1 = [] then ([], [], "❌ 相似度计算失败")
          else (sr.1, sr.2,
            build_unified_result_message env w sr.1 sr.2 fins cf true minLength maxLength)
        else
          let finalResults := eligible.take k
          let zeroSimilarities : List ℝ := List.replicate finalResults.length 0
          (finalResults, zeroSimilarities,
            build_unified_result_message env w finalResults zeroSimilarities fins cf false
              minLength maxLength)

/-! ## qwen_synonym_searcher.py (legacy): advanced access-path selection -/

/-- The five indexable attributes of the legacy advanced access-path
selection. -/
inductive PAttr where
  | pfinal
  | pinitial
  | pstroke
  | ptone
  | pradical
deriving DecidableEq

/-- The numeric priorities assigned by the legacy selection loop. -/
def pattr_prio : PAttr → Nat
  | .pfinal => 5
  | .pinitial => 4
  | .pstroke => 3
  | .ptone => 2
  | .pradical => 1

/-- `best_priority` of the running best pick (0 when nothing picked yet). -/
def best_prio (b : Option (Nat × PAttr)) : Nat :=
  match b with
  | none => 0
  | some p => pattr_prio p.2

/-- Whether a slot dict carries a truthy value for an attribute. -/
def slot_has (s : AdvSlot) : PAttr → Bool
  | .pfinal => s.final ≠ ""
  | .pinitial => s.initial ≠ ""
  | .pstroke => s.strokeCount ≠ 0
  | .ptone => s.tone ≠ ""
  | .pradical => s.radical ≠ ""

/-- The selection loop of the legacy
`QwenSynonymSearcher._get_candidates_by_advanced_binary_search` (the
`best_filter`/`best_position`/`best_type`/`best_priority` bookkeeping): a
truthy `final` breaks immediately; otherwise the `elif` chain considers the
first truthy attribute of the slot in the order initial, stroke count, tone,
radical, guarded by a strict priority comparison with the running best. -/
def legacy_select_loop : List (Option AdvSlot) → Nat → Option (Nat × PAttr) →
    Option (Nat × PAttr)
  | [], _, best => best
  | none :: rest, i, best => legacy_select_loop rest (i + 1) best
  | some s :: rest, i, best =>
      if s.final ≠ "" then some (i, .pfinal)
      else if s.initial ≠ "" ∧ best_prio best < 4 then
        legacy_select_loop rest (i + 1) (some (i, .pinitial))
      else if s.strokeCount ≠ 0 ∧ best_prio best < 3 then
        legacy_select_loop rest (i + 1) (some (i, .pstroke))
      else if s.tone ≠ "" ∧ best_prio best < 2 then
        legacy_select_loop rest (i + 1) (some (i, .ptone))
      else if s.radical ≠ "" ∧ best_prio best < 1 then
        legacy_select_loop rest (i + 1) (some (i, .pradical))
      else legacy_select_loop rest (i + 1) best

/-- The access path selected by the legacy advanced retrieval. -/
def legacy_select_best (characterFilters : List (Option AdvSlot)) :
    Option (Nat × PAttr) :=
  legacy_select_loop characterFilters 0 none

/-! ## Claim-side (specification) definitions -/

/-- Index of the first slot carrying a given attribute. -/
def first_slot_with : List (Option AdvSlot) → PAttr → Option Nat
  | [], _ => none
  | none :: rest, a => (first_slot_with rest a).map (fun j => j + 1)
  | some s :: rest, a =>
      if slot_has s a then some 0
      else (first_slot_with rest a).map (fun j => j + 1)

/-- Specification-side selection in the claimed form for the ORIGINAL claim
C3: scan the attributes in the order final > initial > radical > stroke count
> tone and pick the first slot carrying the first available attribute.
Written from the claim text, for comparison with the source selection. -/
def claimed_select_c3 (cfg : List (Option AdvSlot)) : Option (Nat × PAttr) :=
  match first_slot_with cfg .pfinal with
  | some j => some (j, .pfinal)
  | none =>
  match first_slot_with cfg .pinitial with
  | some j => some (j, .pinitial)
  | none =>
  match first_slot_with cfg .pradical with
  | some j => some (j, .pradical)
  | none =>
  match first_slot_with cfg .pstroke with
  | some j => some (j, .pstroke)
  | none =>
  match first_slot_with cfg .ptone with
  | some j => some (j, .ptone)
  | none => none

/-- Specification-side selection under the AMENDED priority order final >
initial > stroke count > tone > radical: for each attribute in that order, the
first slot carrying it; the first attribute present anywhere wins.  Written
from the amended claim text, for comparison with the source selection. -/
def spec_select_amended (cfg : List (Option AdvSlot)) : Option (Nat × PAttr) :=
  match first_slot_with cfg .pfinal with
  | some j => some (j, .pfinal)
  | none =>
  match first_slot_with cfg .pinitial with
  | some j => some (j, .pinitial)
  | none =>
  match first_slot_with cfg .pstroke with
  | some j => some (j, .pstroke)
  | none =>
  match first_slot_with cfg .ptone with
  | some j => some (j, .ptone)
  | none =>
  match first_slot_with cfg .pradical with
  | some j => some (j, .pradical)
  | none => none

/-- Position and value of the first slot carrying a truthy final. -/
def first_final_slot : List (Option AdvSlot) → Option (Nat × String)
  | [] => none
  | none :: rest => (first_final_slot rest).map (fun jv => (jv.1 + 1, jv.2))
  | some s :: rest =>
      if s.final ≠ "" then some (0, s.final)
      else (first_final_slot rest).map (fun jv => (jv.1 + 1, jv.2))

/-- Position and value of the last slot carrying a truthy initial. -/
def last_slot_with_initial : List (Option AdvSlot) → Option (Nat × String)
  | [] => none
  | o :: rest =>
      match (last_slot_with_initial rest).map (fun jv => (jv.1 + 1, jv.2)) with
      | some jv => some jv
      | none =>
          match o with
          | some s => if s.initial ≠ "" then some (0, s.initial) else none
          | none => none

/-- Specification-side characterization of the v3 advanced selection: the
first slot with a final wins; otherwise the LAST slot with an initial
(the v3 loop overwrites earlier initial picks); otherwise nothing. -/
def spec_select_v3 (cfg : List (Option AdvSlot)) : Option (Nat × V3PathType × String) :=
  match first_final_slot cfg with
  | some (j, v) => some (j, .tfinal, v)
  | none =>
      match last_slot_with_initial cfg with
      | some (j, v) => some (j, .tinitial, v)
      | none => none

/-- Claim-side linear scan of C1: all lexicon terms whose extracted final at
character position `p` equals the queried final (the step-1 predicate of the
claim, applied by brute force to every term). -/
def linear_scan_final_at (lex : List VEntry) (p : Nat) (f : String) : List String :=
  (lex.filter (fun e =>
    match (entry_parts e).get? p with
    | some t => (extract_initial_final (py_strip t)).2 = f
    | none => false)).map (fun e => e.word)

/-- Claim-side linear scan of C1 restricted to the first character position
with the indexing guards of the source (the predicate materialized by
`words_by_final`). -/
def linear_scan_final_first (lex : List VEntry) (f : String) : List String :=
  (lex.filter (fun e => final_key_of e = some f)).map (fun e => e.word)

/-- Claim-side filtered candidate pool of C4 (scenario semantics of the
spec): terms of the constrained length whose normalized final at every
constrained position matches. -/
def spec_filtered_pool (env : SearchEnv) (characterFinals : List String) :
    List String :=
  (env.lex.filter (fun e =>
    e.word.length = characterFinals.length ∧
    (characterFinals.enum.all (fun ifc =>
      if py_strip ifc.2 ≠ "" then
        match (entry_parts e).get? ifc.1 with
        | some t => v3_normalize_final (extract_initial_final (py_strip t)).2 =
            v3_normalize_final (py_strip ifc.2)
        | none => false
      else true)))).map (fun e => e.word)

/-- The first truthy attribute of a slot in the order considered by the
legacy `elif` chain (final, initial, stroke count, tone, radical). -/
def slot_top (s : AdvSlot) : Option PAttr :=
  if s.final ≠ "" then some PAttr.pfinal
  else if s.initial ≠ "" then some PAttr.pinitial
  else if s.strokeCount ≠ 0 then some PAttr.pstroke
  else if s.tone ≠ "" then some PAttr.ptone
  else if s.radical ≠ "" then some PAttr.pradical
  else none

/-- Combine a running best pick with the selection of the remaining slots:
the remainder wins exactly when its priority strictly exceeds the running
best (index shifted by the offset `i`). -/
def spec_combine (b : Option (Nat × PAttr)) (i : Nat)
    (spec : Option (Nat × PAttr)) : Option (Nat × PAttr) :=
  match spec with
  | none => b
  | some (j, a) => if best_prio b < pattr_prio a then some (i + j, a) else b

/-- Priority-maximum formulation of the amended selection: per slot the top
attribute competes, the highest priority wins, and ties go to the earlier
slot. -/
def spec_max : List (Option AdvSlot) → Option (Nat × PAttr)
  | [] => none
  | o :: rest =>
      match o with
      | none => (spec_max rest).map (fun ja => (ja.1 + 1, ja.2))
      | some s =>
          match slot_top s with
          | none => (spec_max rest).map (fun ja => (ja.1 + 1, ja.2))
          | some a0 =>
              match (spec_max rest).map (fun ja => (ja.1 + 1, ja.2)) with
              | none => some (0, a0)
              | some (j, a) =>
                  if pattr_prio a0 < pattr_prio a then some (j, a) else some (0, a0)

/-! ## Concrete sample data for counterexamples and witnesses -/

/-- A two-entry lexicon snapshot: 高兴 (readings ɡāo xìnɡ) and 兴高
(readings xìnɡ ɡāo). -/
def sample_lex : List VEntry :=
  [⟨"高兴", ["ɡāo xìnɡ"]⟩, ⟨"兴高", ["xìnɡ ɡāo"]⟩]

/-- A sample environment over `sample_lex` with no character metadata and an
unavailable embedding capability. -/
def sample_env : SearchEnv :=
  ⟨sample_lex, fun _ => none, fun _ => [], false, fun _ => none, fun _ => ""⟩

/-- An environment whose embedding capability succeeds exactly on chunks
containing the query word `"q"` (one vector per input, as the provider
contract promises) and fails on the others. -/
def env_chunk_fail : SearchEnv :=
  ⟨[], fun _ => none, fun _ => [], true,
   fun b => if b.any (fun w => w = "q") then some (b.map (fun _ => [1])) else none,
   fun _ => ""⟩

/-- An environment over the sample lexicon whose embedding capability is
marked available but whose encode call fails on every chunk. -/
def env_rank_fail : SearchEnv :=
  ⟨sample_lex, fun _ => none, fun _ => [], true, fun _ => none, fun _ => ""⟩

/-- An environment whose embedding capability encodes the query `"q"` as the
vector `[1]` and every other word as `[-1]`. -/
def env_neg_sim : SearchEnv :=
  ⟨[], fun _ => none, fun _ => [], true,
   fun b => some (b.map (fun w => if w = "q" then [(1 : ℝ)] else [(-1 : ℝ)])),
   fun _ => ""⟩

/-- An environment whose embedding capability encodes the query `"q"` as
`[1, 0]` and every other word as the orthogonal `[0, 1]`. -/
def env_orth_sim : SearchEnv :=
  ⟨[], fun _ => none, fun _ => [], true,
   fun b => some (b.map (fun w => if w = "q" then [(1 : ℝ), 0] else [0, (1 : ℝ)])),
   fun _ => ""⟩

/-- A one-slot constraint set carrying both a radical and a stroke count
(and nothing else), the concrete input separating the claimed access-path
priority from the implemented one. -/
def radical_stroke_slot : List (Option AdvSlot) :=
  [some ⟨"", "", "", 4, "木", "", 0⟩]

/-! ## Theorems -/

theorem vp_final_mappings_ne_ue (f : String) : vp_final_mappings f ≠ "ue" := by
  unfold vp_final_mappings
  split
  · decide
  · split
    · decide
    · split
      · decide
      · rename_i h1 h2 h3
        exact h3

theorem extract_snd_ne_ue (p : String) : (extract_initial_final p).2 ≠ "ue" := by
  unfold extract_initial_final
  dsimp only
  cases h : vp_sorted_initials.find? (fun i => str_starts (vp_clean_pinyin p) i) with
  | none => simp only [h]; exact vp_final_mappings_ne_ue _
  | some i => simp only [h]; exact vp_final_mappings_ne_ue _

theorem final_key_of_ne_ue (e : VEntry) : final_key_of e ≠ some "ue" := by
  unfold final_key_of
  split
  · intro h
    exact extract_snd_ne_ue _ (by injection h)
  · simp

theorem words_by_final_get_ue (lex : List VEntry) :
    words_by_final_get lex "ue" = none := by
  unfold words_by_final_get
  have h : lex.filter (fun e => final_key_of e = some "ue") = [] := by
    rw [List.filter_eq_nil_iff]
    intro e _
    simp [final_key_of_ne_ue e]
  simp [h]

/-- C7: for the two equivalent final spellings `ue` and `ve`, filtering any
lexicon snapshot through `filter_words_by_final_fast` with either spelling
yields the same word list: the extraction canonicalizes stored finals so `ue`
is never an index key, the lookup table maps `ue` to `ve`, and the
binary-search fallback only consumes the normalized final, which is identical
for both spellings. -/
theorem c7_ue_ve_same_results (lex : List VEntry) :
    filter_words_by_final_fast lex "ue" = filter_words_by_final_fast lex "ve" := by
  unfold filter_words_by_final_fast
  rw [words_by_final_get_ue]
  have hm : vp_lookup_mappings "ue" = "ve" := by decide
  have hm2 : vp_lookup_mappings "ve" = "ve" := by decide
  rw [hm, hm2]
  cases h : words_by_final_get lex "ve" with
  | some ws => simp
  | none =>
      simp only []
      unfold binary_search_by_final
      have hn : vp_normalize_final "ue" = vp_normalize_final "ve" := by decide
      by_cases hs : sorted_words_by_reversed_pinyin lex = []
      · rw [if_pos (Or.inl hs), if_pos (Or.inl hs)]
      · rw [if_neg (by simp [hs]), if_neg (by simp [hs]), hn]

theorem words_by_final_get_of_scan_ne_nil (lex : List VEntry) (f : String)
    (h : linear_scan_final_first lex f ≠ []) :
    words_by_final_get lex f = some (linear_scan_final_first lex f) := by
  unfold words_by_final_get
  unfold linear_scan_final_first at h ⊢
  rw [if_neg h]

/-- C1 (amended): for every lexicon snapshot and final predicate at the FIRST
character position, the access-path retrieval `filter_words_by_final_fast` is
a superset of the linear scan of the lexicon with the predicate materialized
by the `words_by_final` index (first character's extracted final equals the
query string). -/
theorem c1_amended_superset_first_position (lex : List VEntry) (f : String) :
    ∀ w ∈ linear_scan_final_first lex f, w ∈ filter_words_by_final_fast lex f := by
  intro w hw
  have hne : linear_scan_final_first lex f ≠ [] := by
    intro h
    rw [h] at hw
    exact absurd hw (List.not_mem_nil w)
  unfold filter_words_by_final_fast
  rw [words_by_final_get_of_scan_ne_nil lex f hne]
  exact hw

/-- C1 (counterexample): with the snapshot 高兴/兴高 and the final predicate
`ao` at character position 1, the linear scan returns 兴高 (second character
ɡāo) while the access path consults the first-character final index and
returns only 高兴, so the claimed superset inclusion fails for non-first
positions. -/
theorem c1_counterexample :
    ¬ (∀ w ∈ linear_scan_final_at sample_lex 1 "ao",
        w ∈ filter_words_by_final_fast sample_lex "ao") := by
  decide

theorem verify_finals_loop_length (env : SearchEnv) (fins : List String) :
    ∀ (l : List String) (acc : List String), acc.length < 100 →
    (verify_finals_loop env fins l acc).length ≤ 100 := by
  intro l
  induction l with
  | nil =>
      intro acc h
      unfold verify_finals_loop
      omega
  | cons w rest ih =>
      intro acc h
      unfold verify_finals_loop
      by_cases hm : v3_word_matches_finals env fins w = true
      · rw [if_pos hm]
        dsimp only
        by_cases hc : (acc ++ [w]).length ≥ 100
        · rw [if_pos hc]
          simp only [List.length_append, List.length_cons, List.length_nil]
          omega
        · rw [if_neg hc]
          exact ih (acc ++ [w]) (by simp only [List.length_append] at hc ⊢; omega)
      · rw [if_neg hm]
        exact ih acc h

/-- C9: the simple finals-mode residual verification examines at most the
first 1000 index candidates and stops at 100 verified words, so its output
never exceeds 100 terms, regardless of how many lexicon terms satisfy the
constraints. -/
theorem c9_verification_caps (env : SearchEnv) (candidates : List String)
    (fins : List String) :
    (verify_candidates_conditions env candidates fins).length ≤ 100 ∧
    verify_candidates_conditions env candidates fins =
      verify_candidates_conditions env (candidates.take 1000) fins := by
  constructor
  · unfold verify_candidates_conditions
    split
    · exact verify_finals_loop_length env fins _ [] (by decide)
    · exact verify_finals_loop_length env fins _ [] (by decide)
  · unfold verify_candidates_conditions
    by_cases h : candidates.length > 1000
    · rw [if_pos h, if_neg (by simp only [List.length_take]; omega)]
    · rw [if_neg h, if_neg (by simp only [List.length_take]; omega),
        List.take_of_length_le (by omega)]

/-- C3 (counterexample): on the single-slot constraint set carrying both a
radical and a stroke count, the legacy selection picks the stroke-count index
while the claimed priority order final > initial > radical > stroke_count >
tone would pick the radical index, and the v3 selection picks nothing at all
(it only considers finals and initials). -/
theorem c3_counterexample :
    legacy_select_best radical_stroke_slot = some (0, PAttr.pstroke) ∧
    claimed_select_c3 radical_stroke_slot = some (0, PAttr.pradical) ∧
    v3_select_best radical_stroke_slot 0 none = none ∧
    PAttr.pstroke ≠ PAttr.pradical := by
  decide

theorem adv_max_position_cons_none (rest : List (Option AdvSlot)) (i m : Nat) :
    adv_max_position (none :: rest) i m = adv_max_position rest (i + 1) m := by
  simp only [adv_max_position, Option.isSome_none, Bool.false_eq_true, if_false]

theorem adv_max_position_cons_some (s : AdvSlot) (rest : List (Option AdvSlot))
    (i m : Nat) :
    adv_max_position (some s :: rest) i m = adv_max_position rest (i + 1) (i + 1) := by
  simp only [adv_max_position, Option.isSome_some, if_true]

theorem adv_max_position_le (cf : List (Option AdvSlot)) :
    ∀ (i m : Nat), m ≤ i + 1 → m ≤ adv_max_position cf i m := by
  induction cf with
  | nil =>
      intro i m _
      unfold adv_max_position
      omega
  | cons o rest ih =>
      intro i m h
      cases o with
      | none => rw [adv_max_position_cons_none]; exact ih (i + 1) m (by omega)
      | some s =>
          rw [adv_max_position_cons_some]
          exact le_trans (by omega : m ≤ i + 1) (ih (i + 1) (i + 1) (by omega))

theorem adv_max_position_ge (cf : List (Option AdvSlot)) :
    ∀ (p : Nat) (s : AdvSlot) (i m : Nat), m ≤ i →
    cf[p]? = some (some s) → i + p + 1 ≤ adv_max_position cf i m := by
  induction cf with
  | nil =>
      intro p s i m _ hp
      simp at hp
  | cons o rest ih =>
      intro p s i m hm hp
      cases p with
      | zero =>
          rw [List.getElem?_cons_zero] at hp
          injection hp with hp
          subst hp
          rw [adv_max_position_cons_some]
          have := adv_max_position_le rest (i + 1) (i + 1) (by omega)
          omega
      | succ q =>
          rw [List.getElem?_cons_succ] at hp
          cases o with
          | none =>
              rw [adv_max_position_cons_none]
              have := ih q s (i + 1) m (by omega) hp
              omega
          | some s0 =>
              rw [adv_max_position_cons_some]
              have := ih q s (i + 1) (i + 1) (by omega) hp
              omega

/-- C5: a term shorter than the highest constrained position is excluded by
the verification step: both the v3 `_verify_advanced_conditions` (via its
`max_position` length guard) and `pinyin_tools.filter_words_by_advanced_criteria`
(via its `character_position >= len(word)` skip) always reject a word `w` when
some non-empty constraint sits at a position `p ≥ len(w)`. -/
theorem c5_short_words_excluded :
    (∀ (env : SearchEnv) (cands : List String) (cf : List (Option AdvSlot))
       (p : Nat) (s : AdvSlot) (w : String),
       cf[p]? = some (some s) → w.length ≤ p →
       w ∉ verify_advanced_conditions env cands cf) ∧
    (∀ (data : List PTCharRec) (words : List String) (p : Nat) (w : String)
       (i f t : Option String) (sc : Option Int) (r cs : Option String)
       (sp : Option Int), w.length ≤ p →
       w ∉ filter_words_by_advanced_criteria data words p i f t sc r cs sp) := by
  constructor
  · intro env cands cf p s w hp hw hmem
    unfold verify_advanced_conditions at hmem
    rw [List.mem_filter] at hmem
    have hmax := adv_max_position_ge cf p s 0 0 (le_refl 0) hp
    have hcond := hmem.2
    simp only [Bool.and_eq_true, decide_eq_true_eq] at hcond
    omega
  · intro data words p w i f t sc r cs sp hw hmem
    unfold filter_words_by_advanced_criteria at hmem
    rw [List.mem_filter] at hmem
    have hcond := hmem.2
    rw [if_pos (by omega)] at hcond
    simp at hcond

/-- C5 witness: a one-character word with a constraint at position 1 is
excluded by both verification routines. -/
theorem c5_short_words_excluded_witness :
    ("高" ∉ verify_advanced_conditions sample_env ["高"]
       [none, some ⟨"", "ao", "", 0, "", "", 0⟩]) ∧
    ("高" ∉ filter_words_by_advanced_criteria [] ["高"] 1
       none none none none none none none) := by
  refine ⟨?_, ?_⟩
  · exact c5_short_words_excluded.1 sample_env ["高"]
      [none, some ⟨"", "ao", "", 0, "", "", 0⟩] 1 ⟨"", "ao", "", 0, "", "", 0⟩ "高"
      (by decide) (by decide)
  · exact c5_short_words_excluded.2 [] ["高"] 1 "高"
      none none none none none none none (by decide)

theorem str_drop_zero (s : String) : s.drop 0 = s := by
  apply String.ext
  rw [String.data_drop, List.drop_zero]

theorem find_first_match_longest (L : List String) (c : String)
    (hL : L.Pairwise (fun a b => b.length ≤ a.length)) (i : String)
    (hi : L.find? (fun x => str_starts c x) = some i) :
    ∀ j ∈ L, str_starts c j = true → j.length ≤ i.length := by
  induction L with
  | nil => simp at hi
  | cons x xs ih =>
      by_cases hx : str_starts c x = true
      · rw [List.find?_cons_of_pos _ hx] at hi
        injection hi with hi
        subst hi
        intro j hj _
        rcases List.mem_cons.mp hj with rfl | hj
        · exact le_refl _
        · exact (List.pairwise_cons.mp hL).1 j hj
      · rw [List.find?_cons_of_neg _ (by simpa using hx)] at hi
        intro j hj hjp
        rcases List.mem_cons.mp hj with rfl | hj
        · exact absurd hjp hx
        · exact ih (List.pairwise_cons.mp hL).2 hi j hj hjp

theorem pt_sorted_initials_sorted :
    pt_sorted_initials.Pairwise (fun a b => b.length ≤ a.length) := by
  decide

theorem vp_sorted_initials_sorted :
    vp_sorted_initials.Pairwise (fun a b => b.length ≤ a.length) := by
  decide

/-- C8 (counterexample): on the romanized syllable `xue`, the preprocessor
decomposition `_extract_initial_final` matches initial `x` but returns final
`ve`, not the remainder `ue` of the syllable: the equivalence table is applied
inside the decomposition, so "the remainder of the syllable becomes the
final" fails for it. -/
theorem c8_counterexample :
    extract_initial_final "xue" = ("x", "ve") ∧
    vp_clean_pinyin "xue" = "xue" ∧
    ("xue" : String).drop 1 = "ue" ∧
    ("ve" : String) ≠ "ue" := by
  decide

/-- C8 (amended): both decomposers greedily match the longest initial from
their fixed length-sorted lists and treat the null onset as a valid result
with the whole (cleaned) syllable as the remainder; `split_initial_final`
returns the remainder verbatim as the final, while `_extract_initial_final`
first canonicalizes the remainder through the equivalence table
(`uei → ui`, `iou → iu`, `ue → ve`). -/
theorem c8_amended_greedy_decomposition :
    (∀ p : String, p ≠ "" → pt_has_skip_char (py_strip (str_lower p)) = false →
      ((split_initial_final p).2 =
        (pt_clean_pinyin p).drop (split_initial_final p).1.length) ∧
      ((split_initial_final p).1 = "" ∨
        ((split_initial_final p).1 ∈ pt_sorted_initials ∧
         str_starts (pt_clean_pinyin p) (split_initial_final p).1 = true)) ∧
      (∀ j ∈ pt_sorted_initials, str_starts (pt_clean_pinyin p) j = true →
        j.length ≤ (split_initial_final p).1.length)) ∧
    (∀ p : String,
      ((extract_initial_final p).2 = vp_final_mappings
        ((vp_clean_pinyin p).drop (extract_initial_final p).1.length)) ∧
      ((extract_initial_final p).1 = "" ∨
        ((extract_initial_final p).1 ∈ vp_sorted_initials ∧
         str_starts (vp_clean_pinyin p) (extract_initial_final p).1 = true)) ∧
      (∀ j ∈ vp_sorted_initials, str_starts (vp_clean_pinyin p) j = true →
        j.length ≤ (extract_initial_final p).1.length)) := by
  constructor
  · intro p hp hskip
    unfold split_initial_final
    rw [if_neg hp]
    dsimp only
    rw [hskip]
    simp only [Bool.false_eq_true, if_false]
    cases hf : pt_sorted_initials.find? (fun i => str_starts (pt_clean_pinyin p) i) with
    | none =>
        simp only [hf]
        refine ⟨(str_drop_zero _).symm, Or.inl trivial, ?_⟩
        intro j hj hjp
        exact absurd hjp (by simpa using List.find?_eq_none.mp hf j hj)
    | some i =>
        simp only [hf]
        refine ⟨trivial, Or.inr ⟨List.mem_of_find?_eq_some hf, by simpa using List.find?_some hf⟩, ?_⟩
        exact find_first_match_longest _ _ pt_sorted_initials_sorted i hf
  · intro p
    unfold extract_initial_final
    dsimp only
    cases hf : vp_sorted_initials.find? (fun i => str_starts (vp_clean_pinyin p) i) with
    | none =>
        simp only [hf]
        refine ⟨by simp [str_drop_zero], Or.inl trivial, ?_⟩
        intro j hj hjp
        exact absurd hjp (by simpa using List.find?_eq_none.mp hf j hj)
    | some i =>
        simp only [hf]
        refine ⟨trivial, Or.inr ⟨List.mem_of_find?_eq_some hf, by simpa using List.find?_some hf⟩, ?_⟩
        exact find_first_match_longest _ _ vp_sorted_initials_sorted i hf

/-- C8 witness: the amended decomposition property instantiated on the
concrete digit-toned syllable `xue2`. -/
theorem c8_amended_greedy_decomposition_witness :
    (("xue2" : String) ≠ "" ∧
      pt_has_skip_char (py_strip (str_lower "xue2")) = false) ∧
    (((split_initial_final "xue2").2 =
        (pt_clean_pinyin "xue2").drop (split_initial_final "xue2").1.length) ∧
      ((split_initial_final "xue2").1 = "" ∨
        ((split_initial_final "xue2").1 ∈ pt_sorted_initials ∧
         str_starts (pt_clean_pinyin "xue2") (split_initial_final "xue2").1 = true)) ∧
      (∀ j ∈ pt_sorted_initials, str_starts (pt_clean_pinyin "xue2") j = true →
        j.length ≤ (split_initial_final "xue2").1.length)) :=
  ⟨⟨by decide, by decide⟩,
   c8_amended_greedy_decomposition.1 "xue2" (by decide) (by decide)⟩

/-- C10: whenever the simple finals access path finds fewer than 100
index candidates for the primary final, the searcher calls the undefined
`binary_search_by_pinyin_prefix`, so the retrieval raises `AttributeError`
and the whole query returns the caught-failure triple instead of an expanded
candidate set. -/
theorem c10_missing_method_branch (env : SearchEnv) (word : String) (k : Nat)
    (fins : List String) (cf : Option (List (Option AdvSlot)))
    (minL maxL : Option Nat) (f : String)
    (hw : py_strip word = "") (hcf : cf_truthy cf = false)
    (hfa : fins_any (some fins) = true)
    (hpf : primary_final fins = some f)
    (hlen : (filter_words_by_final_fast env.lex f).length < 100) :
    get_candidates_by_binary_search env fins = .error py_attribute_error_msg ∧
    search_synonyms env word k (some fins) cf minL maxL =
      ([], [], "❌ 查询失败: " ++ py_attribute_error_msg) := by
  have hget : get_candidates_by_binary_search env fins = .error py_attribute_error_msg := by
    unfold get_candidates_by_binary_search
    rw [hpf]
    dsimp only
    rw [if_pos hlen]
  refine ⟨hget, ?_⟩
  have heff : efficient_filter_by_finals env word fins = .error py_attribute_error_msg := by
    unfold efficient_filter_by_finals
    rw [hget]
    rfl
  have hnall : ¬ (fins = [] ∨ fins.all (fun x => x = "") = true) := by
    unfold fins_any at hfa
    obtain ⟨x, hx, hne⟩ := List.any_eq_true.mp hfa
    rintro (rfl | hall)
    · exact absurd hx (List.not_mem_nil x)
    · rw [List.all_eq_true] at hall
      have := hall x hx
      simp at this hne
      exact hne this
  have hfilt : filter_candidates_by_finals env word fins = .error py_attribute_error_msg := by
    unfold filter_candidates_by_finals
    rw [if_neg hnall]
    exact heff
  have helig : eligible_words_exc env word (some fins) cf = .error py_attribute_error_msg := by
    unfold eligible_words_exc
    rw [hcf]
    simp only [Bool.false_eq_true, if_false]
    rw [hfa]
    simp only [if_true]
    exact hfilt
  unfold search_synonyms
  dsimp only
  rw [hw]
  simp only [ne_eq, not_true_eq_false, false_and, if_false, not_false_eq_true, true_and,
    hfa, true_or, not_true_eq_false, if_neg, ite_self]
  simp [helig]

/-- C10 witness: on the two-entry sample lexicon with finals constraint
`["ao", ""]`, the final index holds one candidate (fewer than 100), so the
query returns the caught `AttributeError` failure triple. -/
theorem c10_missing_method_branch_witness :
    (py_strip "" = "" ∧ cf_truthy none = false ∧
     fins_any (some ["ao", ""]) = true ∧
     primary_final ["ao", ""] = some "ao" ∧
     (filter_words_by_final_fast sample_lex "ao").length < 100) ∧
    (get_candidates_by_binary_search sample_env ["ao", ""] =
       .error py_attribute_error_msg ∧
     search_synonyms sample_env "" 5 (some ["ao", ""]) none none none =
       ([], [], "❌ 查询失败: " ++ py_attribute_error_msg)) :=
  ⟨⟨by decide, by decide, by decide, by decide, by decide⟩,
   c10_missing_method_branch sample_env "" 5 ["ao", ""] none none none "ao"
     (by decide) (by decide) (by decide) (by decide) (by decide)⟩

/-- C4 (counterexample): with no query term and the finals constraint
`["ao", ""]` on the sample lexicon, the spec-level filtered candidate pool is
the non-empty `["高兴"]`, yet `search_synonyms` returns an empty result list
(with a caught-failure message) rather than the first `k` pool members with
sentinel scores: the small-index expansion branch raises internally. -/
theorem c4_counterexample :
    (search_synonyms sample_env "" 5 (some ["ao", ""]) none none none).1 = [] ∧
    spec_filtered_pool sample_env ["ao", ""] = ["高兴"] := by
  constructor
  · decide
  · decide

/-- C4 (amended): whenever the query is usable and the request reaches the
unranked branch — no query term but at least one filter set, or a Chinese
query term with the embedding capability unavailable — and the candidate
filtering succeeds with a non-empty length-filtered pool, `search_synonyms`
returns exactly the first `k` pool members in pool order, paired with sentinel
scores `0.0` and the unranked (`sorted=False`) status message; internal
errors are converted by the catch-all handler into an error triple instead of
an exception. -/
theorem c4_amended_unranked_first_k (env : SearchEnv) (word : String) (k : Nat)
    (fins : Option (List String)) (cf : Option (List (Option AdvSlot)))
    (minL maxL : Option Nat) (ws elig : List String)
    (hok : eligible_words_exc env
      (if py_strip word = "" then word else py_strip word) fins cf = .ok ws)
    (helig : elig = if minL.isSome ∨ maxL.isSome then filter_by_length ws minL maxL else ws)
    (hne : elig ≠ [])
    (hbr : if py_strip word = "" then
             (fins_any fins ∨ cf_any cf ∨ minL.isSome ∨ maxL.isSome)
           else (is_chinese (py_strip word) = true ∧ env.qwenAvailable = false)) :
    search_synonyms env word k fins cf minL maxL =
      (elig.take k, List.replicate (elig.take k).length (0 : ℝ),
       build_unified_result_message env
         (if py_strip word = "" then word else py_strip word)
         (elig.take k) (List.replicate (elig.take k).length (0 : ℝ))
         fins cf false minL maxL) := by
  by_cases hq : py_strip word = ""
  · rw [if_pos hq] at hok hbr ⊢
    have hdisj : fins_any fins = true ∨ cf_any cf = true ∨
        minL.isSome = true ∨ maxL.isSome = true := by simpa using hbr
    unfold search_synonyms
    dsimp only
    rw [hq]
    simp only [ne_eq, not_true_eq_false, false_and, if_false, not_false_eq_true, true_and]
    rw [if_neg (not_not_intro hdisj)]
    rw [hok]
    dsimp only
    rw [← helig]
    rw [if_neg hne]
  · rw [if_neg hq] at hok hbr ⊢
    unfold search_synonyms
    dsimp only
    rw [if_neg (fun h => h.2 hbr.1)]
    rw [if_neg (fun h => h.1 hq)]
    rw [if_pos hq]
    rw [hok]
    dsimp only
    rw [← helig]
    rw [if_neg hne]
    rw [if_neg (fun h => absurd h.2 (by simp [hbr.2]))]

/-- C4 witness: a pure length-filter query (no query term, min length 2) on
the sample lexicon returns the first `k` pool members with sentinel scores and
the unranked message. -/
theorem c4_amended_unranked_first_k_witness :
    (eligible_words_exc sample_env
       (if py_strip "" = "" then "" else py_strip "") none none =
         .ok ["高兴", "兴高"] ∧
     (["高兴", "兴高"] : List String) ≠ []) ∧
    search_synonyms sample_env "" 3 none none (some 2) none =
      ((["高兴", "兴高"] : List String).take 3,
       List.replicate ((["高兴", "兴高"] : List String).take 3).length (0 : ℝ),
       build_unified_result_message sample_env
         (if py_strip "" = "" then "" else py_strip "")
         ((["高兴", "兴高"] : List String).take 3)
         (List.replicate ((["高兴", "兴高"] : List String).take 3).length (0 : ℝ))
         none none false (some 2) none) :=
  ⟨⟨by rfl, by decide⟩,
   c4_amended_unranked_first_k sample_env "" 3 none none (some 2) none
     ["高兴", "兴高"] ["高兴", "兴高"] (by rfl) (by decide) (by decide)
     (by decide)⟩

theorem encode_batches_flatten (bs : Nat) (hbs : 0 < bs) :
    ∀ words : List String, (encode_batches bs words).flatten = words := by
  suffices H : ∀ n (words : List String), words.length = n →
      (encode_batches bs words).flatten = words by
    intro words; exact H words.length words rfl
  intro n
  induction n using Nat.strong_induction_on with
  | _ n ih =>
    intro words hlen
    by_cases hw : words = []
    · subst hw
      unfold encode_batches
      simp [Nat.div_eq_of_lt (by omega : bs - 1 < bs)]
    · have hlen1 : 1 ≤ words.length := by
        cases words with
        | nil => exact absurd rfl hw
        | cons a l => simp
      unfold encode_batches
      have hceil : (words.length + bs - 1) / bs = (words.length - 1) / bs + 1 := by
        have harith : words.length + bs - 1 - bs = words.length - 1 := by omega
        rw [Nat.div_eq_sub_div hbs (by omega), harith]
      have hceil2 : ((words.drop bs).length + bs - 1) / bs = (words.length - 1) / bs := by
        rw [List.length_drop]
        by_cases hb : bs ≤ words.length
        · congr 1
          omega
        · rw [Nat.div_eq_of_lt (by omega), Nat.div_eq_of_lt (by omega)]
      rw [hceil, List.range_succ_eq_map]
      simp only [List.map_cons, List.map_map, List.flatten_cons, Nat.zero_mul,
        List.drop_zero]
      have hrest : (List.range ((words.length - 1) / bs)).map
          ((fun j => (words.drop (j * bs)).take bs) ∘ Nat.succ) =
          (List.range ((words.length - 1) / bs)).map
          (fun j => ((words.drop bs).drop (j * bs)).take bs) := by
        apply List.map_congr_left
        intro j _
        simp only [Function.comp]
        rw [List.drop_drop]
        congr 2
        calc Nat.succ j * bs = j * bs + bs := by rw [Nat.succ_mul]
          _ = bs + j * bs := by omega
      rw [hrest]
      have hdroplen : (words.drop bs).length < n := by
        rw [List.length_drop]
        omega
      have := ih (words.drop bs).length (by omega) (words.drop bs) rfl
      unfold encode_batches at this
      rw [hceil2] at this
      rw [this]
      exact List.take_append_drop bs words

theorem encode_batches_mem_ne_nil {bs : Nat} {words : List String}
    {b : List String} (hbs : 0 < bs) (hb : b ∈ encode_batches bs words) :
    b ≠ [] := by
  unfold encode_batches at hb
  obtain ⟨j, hj, rfl⟩ := List.mem_map.mp hb
  rw [List.mem_range] at hj
  have hj2 : (j + 1) * bs ≤ words.length + bs - 1 :=
    (Nat.le_div_iff_mul_le hbs).mp hj
  have hlen1 : 1 ≤ words.length := by
    by_contra h
    have : words.length = 0 := by omega
    rw [this] at hj
    rw [Nat.div_eq_of_lt (by omega)] at hj
    omega
  have hjb : j * bs < words.length := by
    have : j * bs + bs = (j + 1) * bs := by rw [Nat.succ_mul]
    omega
  intro h
  rcases List.take_eq_nil_iff.mp h with h1 | h2
  · omega
  · rw [List.drop_eq_nil_iff] at h2
    omega

theorem gather_embeddings_length (env : SearchEnv) (bs : Nat)
    (words : List String) :
    (gather_embeddings env bs words).length =
      ((encode_batches bs words).map
        (fun b => match env.encode b with
          | none => 0
          | some es => es.length)).sum := by
  unfold gather_embeddings
  generalize encode_batches bs words = L
  suffices H : ∀ (L : List (List String)) (acc : List (List ℝ)),
      (L.foldl (fun acc b => match env.encode b with
        | none => acc
        | some es => acc ++ es) acc).length =
      acc.length + (L.map (fun b => match env.encode b with
        | none => 0
        | some es => es.length)).sum by
    simpa using H L []
  intro L
  induction L with
  | nil => intro acc; simp
  | cons b rest ih =>
      intro acc
      simp only [List.foldl_cons, List.map_cons, List.sum_cons]
      cases h : env.encode b with
      | none => rw [ih acc]; simp only [h]; omega
      | some es =>
          rw [ih (acc ++ es)]
          simp only [h, List.length_append]
          omega

theorem batch_similarities_body_chunk_fail (env : SearchEnv) (bs : Nat)
    (hbs : 0 < bs) (q : String) (cands : List String)
    (hc : ∀ b v, env.encode b = some v → v.length = b.length)
    (hf : ∃ b ∈ encode_batches bs (q :: cands), env.encode b = none) :
    batch_similarities_body env bs q cands = [] := by
  unfold batch_similarities_body
  dsimp only
  have hsum : ((encode_batches bs (q :: cands)).map
      (fun b => match env.encode b with
        | none => 0
        | some es => es.length)).sum <
      ((encode_batches bs (q :: cands)).map List.length).sum := by
    obtain ⟨b0, hb0, hb0f⟩ := hf
    apply List.sum_lt_sum
    · intro b hb
      cases h : env.encode b with
      | none => simp only [h]; omega
      | some es => simp only [h]; exact le_of_eq (hc b es h)
    · refine ⟨b0, hb0, ?_⟩
      simp only [hb0f]
      exact List.length_pos.mpr (encode_batches_mem_ne_nil hbs hb0)
  have hflat : ((encode_batches bs (q :: cands)).map List.length).sum =
      (q :: cands).length := by
    rw [← List.length_flatten, encode_batches_flatten bs hbs]
  have hlt : (gather_embeddings env bs (q :: cands)).length < (q :: cands).length := by
    rw [gather_embeddings_length]
    omega
  rw [if_pos (by omega)]

/-- C2 (amended): a failing encode chunk is NOT recovered by dropping only its
candidates: in both `_compute_batch_similarities_optimized` (chunk size 25)
and `_compute_batch_similarities_fallback` (chunk size 20), when any chunk's
encode call fails while successful chunks return one vector per input, the
collected embedding count can no longer match the number of encoded words, so
the whole similarity computation returns the empty list,
`_compute_similarities_and_sort` then reports overall failure `([], [])`, and
`search_synonyms` — on the ranked branch, where the similarity computation
runs at all — returns the error triple `([], [], "❌ 相似度计算失败")` to the
caller rather than ranking the remaining candidates or degrading to the
unranked first-`k` results. -/
theorem c2_amended_chunk_failure_aborts :
    (∀ (env : SearchEnv) (q : String) (cands : List String),
      (∀ b v, env.encode b = some v → v.length = b.length) →
      (∃ b ∈ encode_batches 25 (q :: cands), env.encode b = none) →
      compute_batch_similarities_optimized env q cands = []) ∧
    (∀ (env : SearchEnv) (q : String) (cands : List String),
      (∀ b v, env.encode b = some v → v.length = b.length) →
      (∃ b ∈ encode_batches 20 (q :: cands), env.encode b = none) →
      compute_batch_similarities_fallback env q cands = []) ∧
    (∀ (env : SearchEnv) (q : String) (cands : List String) (k : Nat),
      compute_batch_similarities_optimized env q
        (if cands.length > 1000 then cands.take 1000 else cands) = [] →
      compute_similarities_and_sort env q cands k = ([], [])) ∧
    (∀ (env : SearchEnv) (word : String) (k : Nat) (fins : Option (List String))
       (cf : Option (List (Option AdvSlot))) (minL maxL : Option Nat)
       (ws elig : List String),
      py_strip word ≠ "" →
      is_chinese (py_strip word) = true →
      env.qwenAvailable = true →
      eligible_words_exc env (py_strip word) fins cf = .ok ws →
      elig = (if minL.isSome ∨ maxL.isSome then filter_by_length ws minL maxL
              else ws) →
      elig ≠ [] →
      (compute_similarities_and_sort env (py_strip word) elig k).1 = [] →
      search_synonyms env word k fins cf minL maxL =
        ([], [], "❌ 相似度计算失败")) := by
  refine ⟨?_, ?_, ?_, ?_⟩
  · intro env q cands hc hf
    exact batch_similarities_body_chunk_fail env 25 (by omega) q cands hc hf
  · intro env q cands hc hf
    exact batch_similarities_body_chunk_fail env 20 (by omega) q cands hc hf
  · intro env q cands k hopt
    unfold compute_similarities_and_sort
    by_cases hc : cands = []
    · rw [if_pos hc]
    · rw [if_neg hc]
      dsimp only
      rw [hopt]
      simp
  · intro env word k fins cf minL maxL ws elig hq hcn hav hok helig hne hsim
    unfold search_synonyms
    dsimp only
    rw [if_neg (fun h => h.2 hcn)]
    rw [if_neg (fun h => h.1 hq)]
    rw [if_pos hq]
    rw [hok]
    dsimp only
    rw [← helig]
    rw [if_neg hne]
    rw [if_pos ⟨hq, hav⟩]
    rw [if_pos hsim]

/-- C2 (counterexample): with 25 candidates, the query plus pool splits into
two chunks; the provider encodes the first chunk (the query and 24
candidates) successfully but fails on the second, and the optimized batch
similarity computation returns the empty list — the 24 successfully encoded
candidates are NOT scored and returned, contradicting the claimed per-chunk
recovery. -/
theorem c2_counterexample :
    compute_batch_similarities_optimized env_chunk_fail "q"
      (List.replicate 25 "c") = [] ∧
    env_chunk_fail.encode ("q" :: List.replicate 24 "c") =
      some (List.replicate 25 [(1 : ℝ)]) ∧
    env_chunk_fail.encode ["c"] = none := by
  refine ⟨by rfl, by rfl, by rfl⟩

/-- C2 witness: a provider that fails on every chunk satisfies the amended
theorem's hypotheses, the batch computation returns the empty list, and on
the sample lexicon with the Chinese query 高 the whole `search_synonyms`
call returns the similarity-failure error triple. -/
theorem c2_amended_chunk_failure_aborts_witness :
    compute_batch_similarities_optimized sample_env "q" ["c"] = [] ∧
    search_synonyms env_rank_fail "高" 5 none none none none =
      ([], [], "❌ 相似度计算失败") :=
  ⟨c2_amended_chunk_failure_aborts.1 sample_env "q" ["c"]
     (fun b v h => by simp [sample_env] at h)
     ⟨["q", "c"], by decide, rfl⟩,
   c2_amended_chunk_failure_aborts.2.2.2 env_rank_fail "高" 5 none none none none
     ["高兴", "兴高"] ["高兴", "兴高"]
     (by decide) (by decide) rfl (by rfl) (by rfl) (by decide) (by rfl)⟩

theorem vdot_self_nonneg (v : List ℝ) : 0 ≤ vdot v v := by
  induction v with
  | nil => simp [vdot]
  | cons a l ih =>
      simp only [vdot, List.zipWith_cons_cons, List.sum_cons] at ih ⊢
      nlinarith [mul_self_nonneg a]

theorem vdot_eq_sum (v : List ℝ) :
    ∀ w : List ℝ, vdot v w = ∑ i ∈ Finset.range (min v.length w.length),
      v.getD i 0 * w.getD i 0 := by
  induction v with
  | nil => intro w; simp [vdot]
  | cons a as ih =>
      intro w
      cases w with
      | nil => simp [vdot]
      | cons b bs =>
          simp only [vdot, List.zipWith_cons_cons, List.sum_cons, List.length_cons,
            Nat.succ_min_succ, Finset.sum_range_succ', List.getD_cons_succ,
            List.getD_cons_zero]
          rw [← vdot]
          rw [ih bs]
          ring

theorem vdot_self_eq_sum (v : List ℝ) :
    vdot v v = ∑ i ∈ Finset.range v.length, v.getD i 0 ^ 2 := by
  rw [vdot_eq_sum v v]
  simp [Nat.min_self, sq]

theorem sum_sq_le_vdot_self (v : List ℝ) (m : Nat) (hm : m ≤ v.length) :
    ∑ i ∈ Finset.range m, v.getD i 0 ^ 2 ≤ vdot v v := by
  rw [vdot_self_eq_sum]
  exact Finset.sum_le_sum_of_subset_of_nonneg
    (Finset.range_subset.mpr hm) (fun i _ _ => sq_nonneg _)

theorem abs_vdot_le (v w : List ℝ) :
    |vdot v w| ≤ Real.sqrt (vdot v v) * Real.sqrt (vdot w w) := by
  have hm1 : min v.length w.length ≤ v.length := min_le_left _ _
  have hm2 : min v.length w.length ≤ w.length := min_le_right _ _
  have hFle := sum_sq_le_vdot_self v (min v.length w.length) hm1
  have hGle := sum_sq_le_vdot_self w (min v.length w.length) hm2
  have hsqF := Real.sqrt_le_sqrt hFle
  have hsqG := Real.sqrt_le_sqrt hGle
  have hup : vdot v w ≤ Real.sqrt (vdot v v) * Real.sqrt (vdot w w) := by
    rw [vdot_eq_sum v w]
    calc ∑ i ∈ Finset.range (min v.length w.length), v.getD i 0 * w.getD i 0
        ≤ Real.sqrt (∑ i ∈ Finset.range (min v.length w.length), v.getD i 0 ^ 2) *
          Real.sqrt (∑ i ∈ Finset.range (min v.length w.length), w.getD i 0 ^ 2) :=
          Real.sum_mul_le_sqrt_mul_sqrt _ _ _
      _ ≤ Real.sqrt (vdot v v) * Real.sqrt (vdot w w) :=
          mul_le_mul hsqF hsqG (Real.sqrt_nonneg _) (Real.sqrt_nonneg _)
  have hlo : -(vdot v w) ≤ Real.sqrt (vdot v v) * Real.sqrt (vdot w w) := by
    rw [vdot_eq_sum v w]
    calc -(∑ i ∈ Finset.range (min v.length w.length), v.getD i 0 * w.getD i 0)
        = ∑ i ∈ Finset.range (min v.length w.length), (-(v.getD i 0)) * w.getD i 0 := by
          rw [← Finset.sum_neg_distrib]
          congr 1
          funext i
          ring
      _ ≤ Real.sqrt (∑ i ∈ Finset.range (min v.length w.length), (-(v.getD i 0)) ^ 2) *
          Real.sqrt (∑ i ∈ Finset.range (min v.length w.length), w.getD i 0 ^ 2) :=
          Real.sum_mul_le_sqrt_mul_sqrt _ _ _
      _ = Real.sqrt (∑ i ∈ Finset.range (min v.length w.length), v.getD i 0 ^ 2) *
          Real.sqrt (∑ i ∈ Finset.range (min v.length w.length), w.getD i 0 ^ 2) := by
          rw [show (∑ i ∈ Finset.range (min v.length w.length), (-(v.getD i 0)) ^ 2) =
              ∑ i ∈ Finset.range (min v.length w.length), v.getD i 0 ^ 2 from
            Finset.sum_congr rfl (fun i _ => by ring)]
      _ ≤ Real.sqrt (vdot v v) * Real.sqrt (vdot w w) :=
          mul_le_mul hsqF hsqG (Real.sqrt_nonneg _) (Real.sqrt_nonneg _)
  rw [abs_le]
  constructor <;> linarith

theorem cosine_sim_bounds (v w : List ℝ) :
    -1 ≤ cosine_sim v w ∧ cosine_sim v w ≤ 1 := by
  unfold cosine_sim vnorm
  set D := Real.sqrt (vdot v v) * Real.sqrt (vdot w w) with hD
  have hD0 : 0 ≤ D := mul_nonneg (Real.sqrt_nonneg _) (Real.sqrt_nonneg _)
  rcases eq_or_lt_of_le hD0 with h0 | hpos
  · rw [← h0]
    norm_num
  · have habs : |vdot v w| ≤ D := abs_vdot_le v w
    have : |vdot v w / D| ≤ 1 := by
      rw [abs_div, abs_of_pos hpos]
      exact (div_le_one hpos).mpr habs
    rw [abs_le] at this
    constructor <;> [linarith [this.1]; linarith [this.2]]

theorem c6_eval_neg :
    compute_similarities_and_sort env_neg_sim "q" ["c"] 1 = (["c"], [-1]) := by
  have h2 : cosine_sim [(1 : ℝ)] [(-1 : ℝ)] = -1 := by
    unfold cosine_sim vnorm vdot
    simp only [List.zipWith_cons_cons, List.zipWith_nil_right, List.sum_cons,
      List.sum_nil]
    norm_num [Real.sqrt_one]
  have h1 : compute_batch_similarities_optimized env_neg_sim "q" ["c"] =
      [("c", cosine_sim [(1 : ℝ)] [(-1 : ℝ)])] := rfl
  unfold compute_similarities_and_sort
  rw [if_neg (by simp : ¬ (["c"] : List String) = [])]
  dsimp only
  rw [if_neg (by norm_num : ¬ (["c"] : List String).length > 1000)]
  rw [h1, h2]
  rw [if_neg (by simp : ¬ ([(("c" : String), (-1 : ℝ))] : List (String × ℝ)) = [])]
  unfold sort_by_score_desc
  rw [List.mergeSort_singleton]
  simp

theorem c6_eval_orth :
    compute_similarities_and_sort env_orth_sim "q" ["c"] 1 = (["c"], [0]) := by
  have h2 : cosine_sim [(1 : ℝ), 0] [(0 : ℝ), 1] = 0 := by
    unfold cosine_sim vnorm vdot
    simp only [List.zipWith_cons_cons, List.zipWith_nil_right, List.sum_cons,
      List.sum_nil]
    norm_num
  have h1 : compute_batch_similarities_optimized env_orth_sim "q" ["c"] =
      [("c", cosine_sim [(1 : ℝ), 0] [(0 : ℝ), 1])] := rfl
  unfold compute_similarities_and_sort
  rw [if_neg (by simp : ¬ (["c"] : List String) = [])]
  dsimp only
  rw [if_neg (by norm_num : ¬ (["c"] : List String).length > 1000)]
  rw [h1, h2]
  rw [if_neg (by simp : ¬ ([(("c" : String), (0 : ℝ))] : List (String × ℝ)) = [])]
  unfold sort_by_score_desc
  rw [List.mergeSort_singleton]
  simp

/-- C6 (counterexample): a provider embedding the query as `[1]` and the
candidate as `[-1]` yields a RANKED result whose score is the cosine
similarity `-1`, which lies outside the claimed interval `[0, 1]`. -/
theorem c6_counterexample :
    compute_similarities_and_sort env_neg_sim "q" ["c"] 1 = (["c"], [-1]) ∧
    ¬ ((0 : ℝ) ≤ -1) := by
  exact ⟨c6_eval_neg, by norm_num⟩

/-- Every pair produced by the batch similarity body carries a cosine
similarity as its score. -/
theorem mem_batch_body_is_cosine (env : SearchEnv) (bs : Nat) (q : String)
    (cl : List String) (p : String × ℝ)
    (hp : p ∈ batch_similarities_body env bs q cl) :
    ∃ u v, p.2 = cosine_sim u v := by
  unfold batch_similarities_body at hp
  dsimp only at hp
  split at hp
  · simp at hp
  · rw [List.mem_map] at hp
    obtain ⟨ip, hip, hpe⟩ := hp
    exact ⟨_, _, by rw [← hpe]⟩

/-- C6 (amended): every score of a ranked result produced by the semantic
reranking pipeline is a cosine similarity and lies in the closed interval
`[-1, 1]`; the sentinel `0.0` also occurs as a genuine ranked score
(orthogonal embeddings), so `0.0` is not exclusive to unranked results. -/
theorem c6_amended_scores_in_range :
    (∀ (env : SearchEnv) (q : String) (cands : List String) (k : Nat) (s : ℝ),
      s ∈ (compute_similarities_and_sort env q cands k).2 → -1 ≤ s ∧ s ≤ 1) ∧
    compute_similarities_and_sort env_orth_sim "q" ["c"] 1 = (["c"], [0]) := by
  constructor
  · intro env q cands k s hs
    unfold compute_similarities_and_sort at hs
    by_cases hc : cands = []
    · rw [if_pos hc] at hs
      simp at hs
    · rw [if_neg hc] at hs
      dsimp only at hs
      by_cases hsim : compute_batch_similarities_optimized env q
          (if cands.length > 1000 then cands.take 1000 else cands) = []
      · rw [if_pos hsim] at hs
        simp at hs
      · rw [if_neg hsim] at hs
        dsimp only at hs
        rw [List.mem_map] at hs
        obtain ⟨p, hp, rfl⟩ := hs
        have hp2 : p ∈ sort_by_score_desc (compute_batch_similarities_optimized env q
            (if cands.length > 1000 then cands.take 1000 else cands)) :=
          List.mem_of_mem_take hp
        have hp3 : p ∈ compute_batch_similarities_optimized env q
            (if cands.length > 1000 then cands.take 1000 else cands) := by
          unfold sort_by_score_desc at hp2
          exact List.mem_mergeSort.mp hp2
        obtain ⟨u, v, he⟩ := mem_batch_body_is_cosine env 25 q _ p hp3
        rw [he]
        exact cosine_sim_bounds u v
  · exact c6_eval_orth

/-- C6 witness: the amended range property instantiated on the concrete
ranked score `-1` produced by the negative-similarity environment. -/
theorem c6_amended_scores_in_range_witness :
    ((-1 : ℝ) ∈ (compute_similarities_and_sort env_neg_sim "q" ["c"] 1).2) ∧
    (-1 ≤ (-1 : ℝ) ∧ (-1 : ℝ) ≤ 1) := by
  have hmem : (-1 : ℝ) ∈ (compute_similarities_and_sort env_neg_sim "q" ["c"] 1).2 := by
    rw [c6_eval_neg]
    simp
  exact ⟨hmem, c6_amended_scores_in_range.1 env_neg_sim "q" ["c"] 1 (-1) hmem⟩

/-- C1 witness: on the sample lexicon, 高兴 is found by the first-position
linear scan for final `ao` and is accordingly in the access-path result. -/
theorem c1_amended_superset_first_position_witness :
    ("高兴" ∈ linear_scan_final_first sample_lex "ao") ∧
    ("高兴" ∈ filter_words_by_final_fast sample_lex "ao") :=
  ⟨by decide,
   c1_amended_superset_first_position sample_lex "ao" "高兴" (by decide)⟩

theorem pattr_prio_le_five (a : PAttr) : pattr_prio a ≤ 5 := by
  cases a <;> decide

theorem slot_top_has (s : AdvSlot) (a0 : PAttr) (h : slot_top s = some a0) :
    slot_has s a0 = true := by
  unfold slot_top at h
  split at h
  · injection h with h; subst h; simpa [slot_has]
  · split at h
    · injection h with h; subst h; simpa [slot_has]
    · split at h
      · injection h with h; subst h; simpa [slot_has]
      · split at h
        · injection h with h; subst h; simpa [slot_has]
        · split at h
          · injection h with h; subst h; simpa [slot_has]
          · cases h

theorem slot_top_max (s : AdvSlot) (a0 : PAttr) (h : slot_top s = some a0) :
    ∀ a2 : PAttr, pattr_prio a0 < pattr_prio a2 → slot_has s a2 = false := by
  unfold slot_top at h
  split at h <;>
    [skip; split at h <;>
      [skip; split at h <;>
        [skip; split at h <;>
          [skip; split at h <;>
            [skip; exact absurd h (by simp)]]]]] <;>
  · injection h with h
    subst h
    intro a2 ha2
    cases a2 <;> simp_all [slot_has, pattr_prio]

theorem slot_top_none (s : AdvSlot) (h : slot_top s = none) :
    ∀ a : PAttr, slot_has s a = false := by
  unfold slot_top at h
  split at h
  · cases h
  · split at h
    · cases h
    · split at h
      · cases h
      · split at h
        · cases h
        · split at h
          · cases h
          · intro a
            cases a <;> simp_all [slot_has]

theorem spec_combine_shift (b : Option (Nat × PAttr)) (i : Nat)
    (r : Option (Nat × PAttr)) :
    spec_combine b (i + 1) r =
      spec_combine b i (r.map (fun ja => (ja.1 + 1, ja.2))) := by
  cases r with
  | none => rfl
  | some ja =>
      obtain ⟨j, a⟩ := ja
      unfold spec_combine
      simp only [Option.map_some']
      split
      · rw [show i + 1 + j = i + (j + 1) from by omega]
      · rfl

theorem best_prio_some (j : Nat) (a : PAttr) :
    best_prio (some (j, a)) = pattr_prio a := rfl

theorem legacy_step_case (rest : List (Option AdvSlot)) (i : Nat)
    (b : Option (Nat × PAttr)) (a0 : PAttr)
    (hb : best_prio b ≤ 4) (ha0 : pattr_prio a0 ≤ 4)
    (ih : ∀ b2, best_prio b2 ≤ 4 → legacy_select_loop rest (i + 1) b2 =
      spec_combine b2 (i + 1) (spec_max rest)) :
    (if best_prio b < pattr_prio a0 then
       legacy_select_loop rest (i + 1) (some (i, a0))
     else legacy_select_loop rest (i + 1) b) =
    spec_combine b i
      (match (spec_max rest).map (fun ja => (ja.1 + 1, ja.2)) with
       | none => some (0, a0)
       | some (j, a) =>
           if pattr_prio a0 < pattr_prio a then some (j, a) else some (0, a0)) := by
  cases hr : spec_max rest with
  | none =>
      simp only [hr, Option.map_none']
      by_cases hc : best_prio b < pattr_prio a0
      · rw [if_pos hc, ih (some (i, a0)) (by simpa [best_prio]), hr]
        unfold spec_combine
        dsimp only
        rw [if_pos hc, Nat.add_zero]
      · rw [if_neg hc, ih b hb, hr]
        unfold spec_combine
        dsimp only
        rw [if_neg hc]
  | some ja =>
      obtain ⟨j, a⟩ := ja
      simp only [hr, Option.map_some']
      by_cases hcmp : pattr_prio a0 < pattr_prio a
      · rw [if_pos hcmp]
        by_cases hc : best_prio b < pattr_prio a0
        · rw [if_pos hc, ih (some (i, a0)) (by simpa [best_prio]), hr]
          unfold spec_combine
          dsimp only
          simp only [best_prio_some]
          rw [if_pos hcmp, if_pos (by omega), show i + 1 + j = i + (j + 1) from by omega]
        · rw [if_neg hc, ih b hb, hr]
          unfold spec_combine
          dsimp only
          by_cases hba : best_prio b < pattr_prio a
          · rw [if_pos hba, if_pos hba, show i + 1 + j = i + (j + 1) from by omega]
          · rw [if_neg hba, if_neg hba]
      · rw [if_neg hcmp]
        by_cases hc : best_prio b < pattr_prio a0
        · rw [if_pos hc, ih (some (i, a0)) (by simpa [best_prio]), hr]
          unfold spec_combine
          dsimp only
          simp only [best_prio_some]
          rw [if_neg hcmp, if_pos hc, Nat.add_zero]
        · rw [if_neg hc, ih b hb, hr]
          unfold spec_combine
          dsimp only
          rw [if_neg (by omega), if_neg hc]

theorem legacy_loop_eq_spec_max (cfg : List (Option AdvSlot)) :
    ∀ (i : Nat) (b : Option (Nat × PAttr)), best_prio b ≤ 4 →
    legacy_select_loop cfg i b = spec_combine b i (spec_max cfg) := by
  induction cfg with
  | nil => intro i b hb; rfl
  | cons o rest ih =>
      intro i b hb
      cases o with
      | none =>
          show legacy_select_loop rest (i + 1) b = spec_combine b i (spec_max (none :: rest))
          rw [ih (i + 1) b hb,
            show spec_max (none :: rest) =
              (spec_max rest).map (fun ja => (ja.1 + 1, ja.2)) from rfl]
          exact spec_combine_shift b i (spec_max rest)
      | some s =>
          by_cases h1 : s.final ≠ ""
          · have hleg : legacy_select_loop (some s :: rest) i b = some (i, .pfinal) := by
              unfold legacy_select_loop
              rw [if_pos h1]
            have ht : slot_top s = some .pfinal := by
              unfold slot_top
              rw [if_pos h1]
            have hsm : spec_max (some s :: rest) = some (0, .pfinal) := by
              unfold spec_max
              dsimp only
              rw [ht]
              dsimp only
              cases hr : spec_max rest with
              | none => rfl
              | some ja =>
                  obtain ⟨j, a⟩ := ja
                  simp only [Option.map_some']
                  rw [if_neg (by cases a <;> decide)]
            rw [hleg, hsm]
            unfold spec_combine
            dsimp only
            rw [if_pos (by simp only [pattr_prio]; omega), Nat.add_zero]
          · by_cases h2 : s.initial ≠ ""
            · have ht : slot_top s = some .pinitial := by
                unfold slot_top
                rw [if_neg h1, if_pos h2]
              have hleg : legacy_select_loop (some s :: rest) i b =
                  (if best_prio b < pattr_prio .pinitial then
                     legacy_select_loop rest (i + 1) (some (i, .pinitial))
                   else legacy_select_loop rest (i + 1) b) := by
                conv_lhs => unfold legacy_select_loop
                rw [if_neg h1]
                by_cases hb4 : best_prio b < 4
                · rw [if_pos ⟨h2, hb4⟩,
                    if_pos (show best_prio b < pattr_prio .pinitial from hb4)]
                · rw [if_neg (fun h => hb4 h.2),
                    if_neg (fun h => hb4 (by have := h.2; omega)),
                    if_neg (fun h => hb4 (by have := h.2; omega)),
                    if_neg (fun h => hb4 (by have := h.2; omega)),
                    if_neg (show ¬ best_prio b < pattr_prio .pinitial from hb4)]
              rw [hleg,
                show spec_max (some s :: rest) =
                  (match (spec_max rest).map (fun ja => (ja.1 + 1, ja.2)) with
                   | none => some (0, PAttr.pinitial)
                   | some (j, a) => if pattr_prio .pinitial < pattr_prio a then some (j, a)
                       else some (0, PAttr.pinitial)) from by
                  conv_lhs => unfold spec_max
                  dsimp only
                  rw [ht]]
              exact legacy_step_case rest i b .pinitial hb (by decide)
                (fun b2 hb2 => ih (i + 1) b2 hb2)
            · by_cases h3 : s.strokeCount ≠ 0
              · have ht : slot_top s = some .pstroke := by
                  unfold slot_top
                  rw [if_neg h1, if_neg h2, if_pos h3]
                have hleg : legacy_select_loop (some s :: rest) i b =
                    (if best_prio b < pattr_prio .pstroke then
                       legacy_select_loop rest (i + 1) (some (i, .pstroke))
                     else legacy_select_loop rest (i + 1) b) := by
                  conv_lhs => unfold legacy_select_loop
                  rw [if_neg h1, if_neg (fun h => h2 h.1)]
                  by_cases hb3 : best_prio b < 3
                  · rw [if_pos ⟨h3, hb3⟩,
                      if_pos (show best_prio b < pattr_prio .pstroke from hb3)]
                  · rw [if_neg (fun h => hb3 h.2),
                      if_neg (fun h => hb3 (by have := h.2; omega)),
                      if_neg (fun h => hb3 (by have := h.2; omega)),
                      if_neg (show ¬ best_prio b < pattr_prio .pstroke from hb3)]
                rw [hleg,
                  show spec_max (some s :: rest) =
                    (match (spec_max rest).map (fun ja => (ja.1 + 1, ja.2)) with
                     | none => some (0, PAttr.pstroke)
                     | some (j, a) => if pattr_prio .pstroke < pattr_prio a then some (j, a)
                         else some (0, PAttr.pstroke)) from by
                    conv_lhs => unfold spec_max
                    dsimp only
                    rw [ht]]
                exact legacy_step_case rest i b .pstroke hb (by decide)
                  (fun b2 hb2 => ih (i + 1) b2 hb2)
              · by_cases h4 : s.tone ≠ ""
                · have ht : slot_top s = some .ptone := by
                    unfold slot_top
                    rw [if_neg h1, if_neg h2, if_neg h3, if_pos h4]
                  have hleg : legacy_select_loop (some s :: rest) i b =
                      (if best_prio b < pattr_prio .ptone then
                         legacy_select_loop rest (i + 1) (some (i, .ptone))
                       else legacy_select_loop rest (i + 1) b) := by
                    conv_lhs => unfold legacy_select_loop
                    rw [if_neg h1, if_neg (fun h => h2 h.1), if_neg (fun h => h3 h.1)]
                    by_cases hb2 : best_prio b < 2
                    · rw [if_pos ⟨h4, hb2⟩,
                        if_pos (show best_prio b < pattr_prio .ptone from hb2)]
                    · rw [if_neg (fun h => hb2 h.2),
                        if_neg (fun h => hb2 (by have := h.2; omega)),
                        if_neg (show ¬ best_prio b < pattr_prio .ptone from hb2)]
                  rw [hleg,
                    show spec_max (some s :: rest) =
                      (match (spec_max rest).map (fun ja => (ja.1 + 1, ja.2)) with
                       | none => some (0, PAttr.ptone)
                       | some (j, a) => if pattr_prio .ptone < pattr_prio a then some (j, a)
                           else some (0, PAttr.ptone)) from by
                      conv_lhs => unfold spec_max
                      dsimp only
                      rw [ht]]
                  exact legacy_step_case rest i b .ptone hb (by decide)
                    (fun b2 hb2 => ih (i + 1) b2 hb2)
                · by_cases h5 : s.radical ≠ ""
                  · have ht : slot_top s = some .pradical := by
                      unfold slot_top
                      rw [if_neg h1, if_neg h2, if_neg h3, if_neg h4, if_pos h5]
                    have hleg : legacy_select_loop (some s :: rest) i b =
                        (if best_prio b < pattr_prio .pradical then
                           legacy_select_loop rest (i + 1) (some (i, .pradical))
                         else legacy_select_loop rest (i + 1) b) := by
                      conv_lhs => unfold legacy_select_loop
                      rw [if_neg h1, if_neg (fun h => h2 h.1), if_neg (fun h => h3 h.1),
                        if_neg (fun h => h4 h.1)]
                      by_cases hb1 : best_prio b < 1
                      · rw [if_pos ⟨h5, hb1⟩,
                          if_pos (show best_prio b < pattr_prio .pradical from hb1)]
                      · rw [if_neg (fun h => hb1 h.2),
                          if_neg (show ¬ best_prio b < pattr_prio .pradical from hb1)]
                    rw [hleg,
                      show spec_max (some s :: rest) =
                        (match (spec_max rest).map (fun ja => (ja.1 + 1, ja.2)) with
                         | none => some (0, PAttr.pradical)
                         | some (j, a) => if pattr_prio .pradical < pattr_prio a then some (j, a)
                             else some (0, PAttr.pradical)) from by
                        conv_lhs => unfold spec_max
                        dsimp only
                        rw [ht]]
                    exact legacy_step_case rest i b .pradical hb (by decide)
                      (fun b2 hb2 => ih (i + 1) b2 hb2)
                  · have ht : slot_top s = none := by
                      unfold slot_top
                      rw [if_neg h1, if_neg h2, if_neg h3, if_neg h4, if_neg h5]
                    have hleg : legacy_select_loop (some s :: rest) i b =
                        legacy_select_loop rest (i + 1) b := by
                      conv_lhs => unfold legacy_select_loop
                      rw [if_neg h1, if_neg (fun h => h2 h.1), if_neg (fun h => h3 h.1),
                        if_neg (fun h => h4 h.1), if_neg (fun h => h5 h.1)]
                    rw [hleg, ih (i + 1) b hb,
                      show spec_max (some s :: rest) =
                        (spec_max rest).map (fun ja => (ja.1 + 1, ja.2)) from by
                        conv_lhs => unfold spec_max
                        dsimp only
                        rw [ht]]
                    exact spec_combine_shift b i (spec_max rest)

/-! ### C3 amended: equivalence of the source selections with the amended
specification order -/

theorem fsw_cons_none (rest : List (Option AdvSlot)) (a : PAttr) :
    first_slot_with (none :: rest) a =
      (first_slot_with rest a).map (fun j => j + 1) := rfl

theorem fsw_cons_pos (s : AdvSlot) (rest : List (Option AdvSlot)) (a : PAttr)
    (h : slot_has s a = true) :
    first_slot_with (some s :: rest) a = some 0 := by
  conv_lhs => unfold first_slot_with
  rw [if_pos h]

theorem fsw_cons_neg (s : AdvSlot) (rest : List (Option AdvSlot)) (a : PAttr)
    (h : slot_has s a = false) :
    first_slot_with (some s :: rest) a =
      (first_slot_with rest a).map (fun j => j + 1) := by
  conv_lhs => unfold first_slot_with
  rw [if_neg (fun hc => by rw [h] at hc; exact Bool.noConfusion hc)]

/-- Evaluation of the amended specification selection when the first
attribute present (in priority order) is `pfinal`. -/
theorem amended_of_pfinal (cfg : List (Option AdvSlot)) (j : Nat)
    (h5 : first_slot_with cfg .pfinal = some j) :
    spec_select_amended cfg = some (j, .pfinal) := by
  unfold spec_select_amended
  rw [h5]

/-- Evaluation of the amended specification selection when the first
attribute present (in priority order) is `pinitial`. -/
theorem amended_of_pinitial (cfg : List (Option AdvSlot)) (j : Nat)
    (h5 : first_slot_with cfg .pfinal = none)
    (h4 : first_slot_with cfg .pinitial = some j) :
    spec_select_amended cfg = some (j, .pinitial) := by
  unfold spec_select_amended
  rw [h5]
  dsimp only
  rw [h4]

/-- Evaluation of the amended specification selection when the first
attribute present (in priority order) is `pstroke`. -/
theorem amended_of_pstroke (cfg : List (Option AdvSlot)) (j : Nat)
    (h5 : first_slot_with cfg .pfinal = none)
    (h4 : first_slot_with cfg .pinitial = none)
    (h3 : first_slot_with cfg .pstroke = some j) :
    spec_select_amended cfg = some (j, .pstroke) := by
  unfold spec_select_amended
  rw [h5]
  dsimp only
  rw [h4]
  dsimp only
  rw [h3]

/-- Evaluation of the amended specification selection when the first
attribute present (in priority order) is `ptone`. -/
theorem amended_of_ptone (cfg : List (Option AdvSlot)) (j : Nat)
    (h5 : first_slot_with cfg .pfinal = none)
    (h4 : first_slot_with cfg .pinitial = none)
    (h3 : first_slot_with cfg .pstroke = none)
    (h2 : first_slot_with cfg .ptone = some j) :
    spec_select_amended cfg = some (j, .ptone) := by
  unfold spec_select_amended
  rw [h5]
  dsimp only
  rw [h4]
  dsimp only
  rw [h3]
  dsimp only
  rw [h2]

/-- Evaluation of the amended specification selection when the first
attribute present (in priority order) is `pradical`. -/
theorem amended_of_pradical (cfg : List (Option AdvSlot)) (j : Nat)
    (h5 : first_slot_with cfg .pfinal = none)
    (h4 : first_slot_with cfg .pinitial = none)
    (h3 : first_slot_with cfg .pstroke = none)
    (h2 : first_slot_with cfg .ptone = none)
    (h1 : first_slot_with cfg .pradical = some j) :
    spec_select_amended cfg = some (j, .pradical) := by
  unfold spec_select_amended
  rw [h5]
  dsimp only
  rw [h4]
  dsimp only
  rw [h3]
  dsimp only
  rw [h2]
  dsimp only
  rw [h1]

/-- Evaluation of the amended specification selection when no attribute is
present in any slot. -/
theorem amended_of_empty (cfg : List (Option AdvSlot))
    (h5 : first_slot_with cfg .pfinal = none)
    (h4 : first_slot_with cfg .pinitial = none)
    (h3 : first_slot_with cfg .pstroke = none)
    (h2 : first_slot_with cfg .ptone = none)
    (h1 : first_slot_with cfg .pradical = none) :
    spec_select_amended cfg = none := by
  unfold spec_select_amended
  rw [h5]
  dsimp only
  rw [h4]
  dsimp only
  rw [h3]
  dsimp only
  rw [h2]
  dsimp only
  rw [h1]

/-- Inversion: if the amended specification selection is empty, no slot
carries any attribute. -/
theorem amended_inv_none (cfg : List (Option AdvSlot))
    (h : spec_select_amended cfg = none) :
    ∀ a : PAttr, first_slot_with cfg a = none := by
  unfold spec_select_amended at h
  cases h5 : first_slot_with cfg .pfinal with
  | some j0 => rw [h5] at h; exact Option.noConfusion h
  | none =>
      rw [h5] at h
      cases h4 : first_slot_with cfg .pinitial with
      | some j0 => rw [h4] at h; exact Option.noConfusion h
      | none =>
          rw [h4] at h
          cases h3 : first_slot_with cfg .pstroke with
          | some j0 => rw [h3] at h; exact Option.noConfusion h
          | none =>
              rw [h3] at h
              cases h2 : first_slot_with cfg .ptone with
              | some j0 => rw [h2] at h; exact Option.noConfusion h
              | none =>
                  rw [h2] at h
                  cases h1 : first_slot_with cfg .pradical with
                  | some j0 => rw [h1] at h; exact Option.noConfusion h
                  | none =>
                      rw [h1] at h
                      intro a
                      cases a <;> assumption

/-- Inversion: if the amended specification selection picks a slot and
attribute, the slot is the first one carrying that attribute and no slot
carries a higher-priority attribute. -/
theorem amended_inv_some (cfg : List (Option AdvSlot)) (j : Nat) (a : PAttr)
    (h : spec_select_amended cfg = some (j, a)) :
    first_slot_with cfg a = some j ∧
      ∀ a2 : PAttr, pattr_prio a < pattr_prio a2 → first_slot_with cfg a2 = none := by
  unfold spec_select_amended at h
  cases h5 : first_slot_with cfg .pfinal with
  | some j0 =>
      rw [h5] at h
      injection h with h0
      injection h0 with hj ha
      subst hj
      subst ha
      refine ⟨h5, fun a2 ha2 => ?_⟩
      cases a2 <;> exact absurd ha2 (by decide)
  | none =>
      rw [h5] at h
      cases h4 : first_slot_with cfg .pinitial with
      | some j0 =>
          rw [h4] at h
          injection h with h0
          injection h0 with hj ha
          subst hj
          subst ha
          refine ⟨h4, fun a2 ha2 => ?_⟩
          cases a2 <;> first | exact absurd ha2 (by decide) | assumption
      | none =>
          rw [h4] at h
          cases h3 : first_slot_with cfg .pstroke with
          | some j0 =>
              rw [h3] at h
              injection h with h0
              injection h0 with hj ha
              subst hj
              subst ha
              refine ⟨h3, fun a2 ha2 => ?_⟩
              cases a2 <;> first | exact absurd ha2 (by decide) | assumption
          | none =>
              rw [h3] at h
              cases h2 : first_slot_with cfg .ptone with
              | some j0 =>
                  rw [h2] at h
                  injection h with h0
                  injection h0 with hj ha
                  subst hj
                  subst ha
                  refine ⟨h2, fun a2 ha2 => ?_⟩
                  cases a2 <;> first | exact absurd ha2 (by decide) | assumption
              | none =>
                  rw [h2] at h
                  cases h1 : first_slot_with cfg .pradical with
                  | some j0 =>
                      rw [h1] at h
                      injection h with h0
                      injection h0 with hj ha
                      subst hj
                      subst ha
                      refine ⟨h1, fun a2 ha2 => ?_⟩
                      cases a2 <;> first | exact absurd ha2 (by decide) | assumption
                  | none =>
                      rw [h1] at h
                      exact Option.noConfusion h
/-- If every attribute's first slot in `cfg` is the shift of its first slot
in `rest`, the amended selection over `cfg` is the shifted amended selection
over `rest`. -/
theorem amended_shift_of (cfg rest : List (Option AdvSlot))
    (e : ∀ a : PAttr, first_slot_with cfg a =
      (first_slot_with rest a).map (fun j => j + 1)) :
    spec_select_amended cfg =
      (spec_select_amended rest).map (fun ja => (ja.1 + 1, ja.2)) := by
  cases hr : spec_select_amended rest with
  | none =>
      have hn := amended_inv_none rest hr
      have e2 : ∀ a : PAttr, first_slot_with cfg a = none := fun a => by
        rw [e a, hn a]
        rfl
      rw [amended_of_empty cfg (e2 .pfinal) (e2 .pinitial) (e2 .pstroke)
        (e2 .ptone) (e2 .pradical)]
      rfl
  | some ja =>
      obtain ⟨j, a⟩ := ja
      obtain ⟨hja, hhi2⟩ := amended_inv_some rest j a hr
      cases a with
      | pfinal =>
          rw [amended_of_pfinal cfg (j + 1)
            (by rw [e .pfinal, hja]; rfl)]
          rfl
      | pinitial =>
          rw [amended_of_pinitial cfg (j + 1)
            (by rw [e .pfinal, hhi2 .pfinal (by decide)]; rfl)
            (by rw [e .pinitial, hja]; rfl)]
          rfl
      | pstroke =>
          rw [amended_of_pstroke cfg (j + 1)
            (by rw [e .pfinal, hhi2 .pfinal (by decide)]; rfl)
            (by rw [e .pinitial, hhi2 .pinitial (by decide)]; rfl)
            (by rw [e .pstroke, hja]; rfl)]
          rfl
      | ptone =>
          rw [amended_of_ptone cfg (j + 1)
            (by rw [e .pfinal, hhi2 .pfinal (by decide)]; rfl)
            (by rw [e .pinitial, hhi2 .pinitial (by decide)]; rfl)
            (by rw [e .pstroke, hhi2 .pstroke (by decide)]; rfl)
            (by rw [e .ptone, hja]; rfl)]
          rfl
      | pradical =>
          rw [amended_of_pradical cfg (j + 1)
            (by rw [e .pfinal, hhi2 .pfinal (by decide)]; rfl)
            (by rw [e .pinitial, hhi2 .pinitial (by decide)]; rfl)
            (by rw [e .pstroke, hhi2 .pstroke (by decide)]; rfl)
            (by rw [e .ptone, hhi2 .ptone (by decide)]; rfl)
            (by rw [e .pradical, hja]; rfl)]
          rfl

/-- The amended selection over `none :: rest` is the shifted amended
selection over `rest`. -/
theorem amended_cons_none (rest : List (Option AdvSlot)) :
    spec_select_amended (none :: rest) =
      (spec_select_amended rest).map (fun ja => (ja.1 + 1, ja.2)) :=
  amended_shift_of (none :: rest) rest (fun a => fsw_cons_none rest a)

/-- Head-step evaluation of the amended selection when the head slot's
highest-priority attribute is `a0`: the tail's pick survives exactly when its
priority strictly exceeds that of `a0`. -/
theorem amended_cons_top (s : AdvSlot) (rest : List (Option AdvSlot)) (a0 : PAttr)
    (hhas : slot_has s a0 = true)
    (hhi : ∀ a2 : PAttr, pattr_prio a0 < pattr_prio a2 → slot_has s a2 = false) :
    spec_select_amended (some s :: rest) =
      match spec_select_amended rest with
      | none => some (0, a0)
      | some (j, a) =>
          if pattr_prio a0 < pattr_prio a then some (j + 1, a) else some (0, a0) := by
  cases hr : spec_select_amended rest with
  | none =>
      have hn := amended_inv_none rest hr
      have en : ∀ a2 : PAttr, slot_has s a2 = false →
          first_slot_with (some s :: rest) a2 = none := fun a2 hf => by
        rw [fsw_cons_neg s rest a2 hf, hn a2]
        rfl
      cases a0 with
      | pfinal =>
          rw [amended_of_pfinal _ 0
            (fsw_cons_pos s rest .pfinal hhas)]
      | pinitial =>
          rw [amended_of_pinitial _ 0
            (en .pfinal (hhi .pfinal (by decide)))
            (fsw_cons_pos s rest .pinitial hhas)]
      | pstroke =>
          rw [amended_of_pstroke _ 0
            (en .pfinal (hhi .pfinal (by decide)))
            (en .pinitial (hhi .pinitial (by decide)))
            (fsw_cons_pos s rest .pstroke hhas)]
      | ptone =>
          rw [amended_of_ptone _ 0
            (en .pfinal (hhi .pfinal (by decide)))
            (en .pinitial (hhi .pinitial (by decide)))
            (en .pstroke (hhi .pstroke (by decide)))
            (fsw_cons_pos s rest .ptone hhas)]
      | pradical =>
          rw [amended_of_pradical _ 0
            (en .pfinal (hhi .pfinal (by decide)))
            (en .pinitial (hhi .pinitial (by decide)))
            (en .pstroke (hhi .pstroke (by decide)))
            (en .ptone (hhi .ptone (by decide)))
            (fsw_cons_pos s rest .pradical hhas)]
  | some ja =>
      obtain ⟨j, a⟩ := ja
      obtain ⟨hja, hhi2⟩ := amended_inv_some rest j a hr
      have en : ∀ a2 : PAttr, slot_has s a2 = false → first_slot_with rest a2 = none →
          first_slot_with (some s :: rest) a2 = none := fun a2 hf hr2 => by
        rw [fsw_cons_neg s rest a2 hf, hr2]
        rfl
      have es : ∀ a2 : PAttr, slot_has s a2 = false → first_slot_with rest a2 = some j →
          first_slot_with (some s :: rest) a2 = some (j + 1) := fun a2 hf hr2 => by
        rw [fsw_cons_neg s rest a2 hf, hr2]
        rfl
      cases a0 with
      | pfinal =>
          cases a with
          | pfinal =>
              rw [amended_of_pfinal _ 0
                (fsw_cons_pos s rest .pfinal hhas)]
              rfl
          | pinitial =>
              rw [amended_of_pfinal _ 0
                (fsw_cons_pos s rest .pfinal hhas)]
              rfl
          | pstroke =>
              rw [amended_of_pfinal _ 0
                (fsw_cons_pos s rest .pfinal hhas)]
              rfl
          | ptone =>
              rw [amended_of_pfinal _ 0
                (fsw_cons_pos s rest .pfinal hhas)]
              rfl
          | pradical =>
              rw [amended_of_pfinal _ 0
                (fsw_cons_pos s rest .pfinal hhas)]
              rfl
      | pinitial =>
          cases a with
          | pfinal =>
              rw [amended_of_pfinal _ (j + 1)
                (es .pfinal (hhi .pfinal (by decide)) hja)]
              rfl
          | pinitial =>
              rw [amended_of_pinitial _ 0
                (en .pfinal (hhi .pfinal (by decide)) (hhi2 .pfinal (by decide)))
                (fsw_cons_pos s rest .pinitial hhas)]
              rfl
          | pstroke =>
              rw [amended_of_pinitial _ 0
                (en .pfinal (hhi .pfinal (by decide)) (hhi2 .pfinal (by decide)))
                (fsw_cons_pos s rest .pinitial hhas)]
              rfl
          | ptone =>
              rw [amended_of_pinitial _ 0
                (en .pfinal (hhi .pfinal (by decide)) (hhi2 .pfinal (by decide)))
                (fsw_cons_pos s rest .pinitial hhas)]
              rfl
          | pradical =>
              rw [amended_of_pinitial _ 0
                (en .pfinal (hhi .pfinal (by decide)) (hhi2 .pfinal (by decide)))
                (fsw_cons_pos s rest .pinitial hhas)]
              rfl
      | pstroke =>
          cases a with
          | pfinal =>
              rw [amended_of_pfinal _ (j + 1)
                (es .pfinal (hhi .pfinal (by decide)) hja)]
              rfl
          | pinitial =>
              rw [amended_of_pinitial _ (j + 1)
                (en .pfinal (hhi .pfinal (by decide)) (hhi2 .pfinal (by decide)))
                (es .pinitial (hhi .pinitial (by decide)) hja)]
              rfl
          | pstroke =>
              rw [amended_of_pstroke _ 0
                (en .pfinal (hhi .pfinal (by decide)) (hhi2 .pfinal (by decide)))
                (en .pinitial (hhi .pinitial (by decide)) (hhi2 .pinitial (by decide)))
                (fsw_cons_pos s rest .pstroke hhas)]
              rfl
          | ptone =>
              rw [amended_of_pstroke _ 0
                (en .pfinal (hhi .pfinal (by decide)) (hhi2 .pfinal (by decide)))
                (en .pinitial (hhi .pinitial (by decide)) (hhi2 .pinitial (by decide)))
                (fsw_cons_pos s rest .pstroke hhas)]
              rfl
          | pradical =>
              rw [amended_of_pstroke _ 0
                (en .pfinal (hhi .pfinal (by decide)) (hhi2 .pfinal (by decide)))
                (en .pinitial (hhi .pinitial (by decide)) (hhi2 .pinitial (by decide)))
                (fsw_cons_pos s rest .pstroke hhas)]
              rfl
      | ptone =>
          cases a with
          | pfinal =>
              rw [amended_of_pfinal _ (j + 1)
                (es .pfinal (hhi .pfinal (by decide)) hja)]
              rfl
          | pinitial =>
              rw [amended_of_pinitial _ (j + 1)
                (en .pfinal (hhi .pfinal (by decide)) (hhi2 .pfinal (by decide)))
                (es .pinitial (hhi .pinitial (by decide)) hja)]
              rfl
          | pstroke =>
              rw [amended_of_pstroke _ (j + 1)
                (en .pfinal (hhi .pfinal (by decide)) (hhi2 .pfinal (by decide)))
                (en .pinitial (hhi .pinitial (by decide)) (hhi2 .pinitial (by decide)))
                (es .pstroke (hhi .pstroke (by decide)) hja)]
              rfl
          | ptone =>
              rw [amended_of_ptone _ 0
                (en .pfinal (hhi .pfinal (by decide)) (hhi2 .pfinal (by decide)))
                (en .pinitial (hhi .pinitial (by decide)) (hhi2 .pinitial (by decide)))
                (en .pstroke (hhi .pstroke (by decide)) (hhi2 .pstroke (by decide)))
                (fsw_cons_pos s rest .ptone hhas)]
              rfl
          | pradical =>
              rw [amended_of_ptone _ 0
                (en .pfinal (hhi .pfinal (by decide)) (hhi2 .pfinal (by decide)))
                (en .pinitial (hhi .pinitial (by decide)) (hhi2 .pinitial (by decide)))
                (en .pstroke (hhi .pstroke (by decide)) (hhi2 .pstroke (by decide)))
                (fsw_cons_pos s rest .ptone hhas)]
              rfl
      | pradical =>
          cases a with
          | pfinal =>
              rw [amended_of_pfinal _ (j + 1)
                (es .pfinal (hhi .pfinal (by decide)) hja)]
              rfl
          | pinitial =>
              rw [amended_of_pinitial _ (j + 1)
                (en .pfinal (hhi .pfinal (by decide)) (hhi2 .pfinal (by decide)))
                (es .pinitial (hhi .pinitial (by decide)) hja)]
              rfl
          | pstroke =>
              rw [amended_of_pstroke _ (j + 1)
                (en .pfinal (hhi .pfinal (by decide)) (hhi2 .pfinal (by decide)))
                (en .pinitial (hhi .pinitial (by decide)) (hhi2 .pinitial (by decide)))
                (es .pstroke (hhi .pstroke (by decide)) hja)]
              rfl
          | ptone =>
              rw [amended_of_ptone _ (j + 1)
                (en .pfinal (hhi .pfinal (by decide)) (hhi2 .pfinal (by decide)))
                (en .pinitial (hhi .pinitial (by decide)) (hhi2 .pinitial (by decide)))
                (en .pstroke (hhi .pstroke (by decide)) (hhi2 .pstroke (by decide)))
                (es .ptone (hhi .ptone (by decide)) hja)]
              rfl
          | pradical =>
              rw [amended_of_pradical _ 0
                (en .pfinal (hhi .pfinal (by decide)) (hhi2 .pfinal (by decide)))
                (en .pinitial (hhi .pinitial (by decide)) (hhi2 .pinitial (by decide)))
                (en .pstroke (hhi .pstroke (by decide)) (hhi2 .pstroke (by decide)))
                (en .ptone (hhi .ptone (by decide)) (hhi2 .ptone (by decide)))
                (fsw_cons_pos s rest .pradical hhas)]
              rfl

/-- The priority-maximum formulation agrees with the attribute-major amended
specification selection. -/
theorem spec_max_eq_amended (cfg : List (Option AdvSlot)) :
    spec_max cfg = spec_select_amended cfg := by
  induction cfg with
  | nil => rfl
  | cons o rest ih =>
      cases o with
      | none =>
          rw [show spec_max (none :: rest) =
              (spec_max rest).map (fun ja => (ja.1 + 1, ja.2)) from rfl,
            amended_cons_none rest, ih]
      | some s =>
          cases ht : slot_top s with
          | none =>
              have hsm : spec_max (some s :: rest) =
                  (spec_max rest).map (fun ja => (ja.1 + 1, ja.2)) := by
                conv_lhs => unfold spec_max
                dsimp only
                rw [ht]
              rw [hsm, amended_shift_of (some s :: rest) rest
                (fun a => fsw_cons_neg s rest a (slot_top_none s ht a)), ih]
          | some a0 =>
              have hsm : spec_max (some s :: rest) =
                  match (spec_max rest).map (fun ja => (ja.1 + 1, ja.2)) with
                  | none => some (0, a0)
                  | some (j, a) =>
                      if pattr_prio a0 < pattr_prio a then some (j, a)
                      else some (0, a0) := by
                conv_lhs => unfold spec_max
                dsimp only
                rw [ht]
              rw [hsm, amended_cons_top s rest a0 (slot_top_has s a0 ht)
                (slot_top_max s a0 ht), ← ih]
              cases spec_max rest with
              | none => rfl
              | some ja =>
                  obtain ⟨j, a⟩ := ja
                  rfl

/-- The legacy advanced access-path selection equals the amended
specification selection. -/
theorem legacy_eq_amended (cfg : List (Option AdvSlot)) :
    legacy_select_best cfg = spec_select_amended cfg := by
  rw [show legacy_select_best cfg = legacy_select_loop cfg 0 none from rfl,
    legacy_loop_eq_spec_max cfg 0 none (by decide), ← spec_max_eq_amended cfg]
  cases spec_max cfg with
  | none => rfl
  | some ja =>
      obtain ⟨j, a⟩ := ja
      unfold spec_combine
      dsimp only
      rw [if_pos (by cases a <;> decide), Nat.zero_add]
/-- Cons-step equation of `last_slot_with_initial`. -/
theorem lsi_cons (o : Option AdvSlot) (rest : List (Option AdvSlot)) :
    last_slot_with_initial (o :: rest) =
      match (last_slot_with_initial rest).map (fun jv => (jv.1 + 1, jv.2)) with
      | some jv => some jv
      | none =>
          match o with
          | some s => if s.initial ≠ "" then some (0, s.initial) else none
          | none => none := rfl

/-- Loop characterization of the v3 advanced selection: the result is the
first final slot (shifted by the running offset), else the last initial slot,
else the incoming running best. -/
theorem v3_loop_eq_spec (cfg : List (Option AdvSlot)) :
    ∀ (i : Nat) (b : Option (Nat × V3PathType × String)),
    v3_select_best cfg i b =
      match first_final_slot cfg with
      | some jv => some (i + jv.1, V3PathType.tfinal, jv.2)
      | none =>
          match last_slot_with_initial cfg with
          | some jv => some (i + jv.1, V3PathType.tinitial, jv.2)
          | none => b := by
  induction cfg with
  | nil => intro i b; rfl
  | cons o rest ih =>
      intro i b
      cases o with
      | none =>
          have hstep : v3_select_best (none :: rest) i b =
              v3_select_best rest (i + 1) b := rfl
          have hff : first_final_slot (none :: rest) =
              (first_final_slot rest).map (fun jv => (jv.1 + 1, jv.2)) := rfl
          have hls : last_slot_with_initial (none :: rest) =
              (last_slot_with_initial rest).map (fun jv => (jv.1 + 1, jv.2)) := by
            rw [lsi_cons]
            cases last_slot_with_initial rest with
            | none => rfl
            | some jv => rfl
          rw [hstep, ih (i + 1) b, hff, hls]
          cases first_final_slot rest with
          | some jv =>
              obtain ⟨j, v⟩ := jv
              dsimp only [Option.map_some']
              rw [show i + 1 + j = i + (j + 1) from by omega]
          | none =>
              dsimp only [Option.map_none']
              cases last_slot_with_initial rest with
              | some jv =>
                  obtain ⟨j, v⟩ := jv
                  dsimp only [Option.map_some']
                  rw [show i + 1 + j = i + (j + 1) from by omega]
              | none => rfl
      | some s =>
          by_cases h1 : s.final ≠ ""
          · have hstep : v3_select_best (some s :: rest) i b =
                some (i, .tfinal, s.final) := by
              conv_lhs => unfold v3_select_best
              rw [if_pos h1]
            have hff : first_final_slot (some s :: rest) = some (0, s.final) := by
              conv_lhs => unfold first_final_slot
              rw [if_pos h1]
            rw [hstep, hff]
            rfl
          · have hff : first_final_slot (some s :: rest) =
                (first_final_slot rest).map (fun jv => (jv.1 + 1, jv.2)) := by
              conv_lhs => unfold first_final_slot
              rw [if_neg h1]
            by_cases h2 : s.initial ≠ ""
            · have hstep : v3_select_best (some s :: rest) i b =
                  v3_select_best rest (i + 1) (some (i, .tinitial, s.initial)) := by
                conv_lhs => unfold v3_select_best
                rw [if_neg h1, if_pos h2]
              have hls : last_slot_with_initial (some s :: rest) =
                  match (last_slot_with_initial rest).map (fun jv => (jv.1 + 1, jv.2)) with
                  | some jv => some jv
                  | none => some (0, s.initial) := by
                rw [lsi_cons]
                cases last_slot_with_initial rest with
                | some jv => rfl
                | none =>
                    dsimp only [Option.map_none']
                    rw [if_pos h2]
              rw [hstep, ih (i + 1) (some (i, .tinitial, s.initial)), hff, hls]
              cases first_final_slot rest with
              | some jv =>
                  obtain ⟨j, v⟩ := jv
                  dsimp only [Option.map_some']
                  rw [show i + 1 + j = i + (j + 1) from by omega]
              | none =>
                  dsimp only [Option.map_none']
                  cases last_slot_with_initial rest with
                  | some jv =>
                      obtain ⟨j, v⟩ := jv
                      dsimp only [Option.map_some']
                      rw [show i + 1 + j = i + (j + 1) from by omega]
                  | none => rfl
            · have hstep : v3_select_best (some s :: rest) i b =
                  v3_select_best rest (i + 1) b := by
                conv_lhs => unfold v3_select_best
                rw [if_neg h1, if_neg h2]
              have hls : last_slot_with_initial (some s :: rest) =
                  (last_slot_with_initial rest).map (fun jv => (jv.1 + 1, jv.2)) := by
                rw [lsi_cons]
                cases last_slot_with_initial rest with
                | some jv => rfl
                | none =>
                    dsimp only [Option.map_none']
                    rw [if_neg h2]
              rw [hstep, ih (i + 1) b, hff, hls]
              cases first_final_slot rest with
              | some jv =>
                  obtain ⟨j, v⟩ := jv
                  dsimp only [Option.map_some']
                  rw [show i + 1 + j = i + (j + 1) from by omega]
              | none =>
                  dsimp only [Option.map_none']
                  cases last_slot_with_initial rest with
                  | some jv =>
                      obtain ⟨j, v⟩ := jv
                      dsimp only [Option.map_some']
                      rw [show i + 1 + j = i + (j + 1) from by omega]
                  | none => rfl

/-- The v3 advanced access-path selection equals its specification: first
final slot, else last initial slot. -/
theorem v3_eq_spec_v3 (cfg : List (Option AdvSlot)) :
    v3_select_best cfg 0 none = spec_select_v3 cfg := by
  rw [v3_loop_eq_spec cfg 0 none]
  unfold spec_select_v3
  cases first_final_slot cfg with
  | some jv =>
      obtain ⟨j, v⟩ := jv
      dsimp only
      rw [Nat.zero_add]
  | none =>
      cases last_slot_with_initial cfg with
      | some jv =>
          obtain ⟨j, v⟩ := jv
          dsimp only
          rw [Nat.zero_add]
      | none => rfl

/-- C3 (amended): the priority order realized by the source differs from the
claimed one.  The legacy searcher's access-path selection scans the
constraint slots under the priority order final > initial > stroke count >
tone > radical — the first slot carrying the highest-priority attribute
present determines the index (equivalently, the attribute-major scan
`spec_select_amended`) — while the v3 searcher's selection uses only finals
and initials: the first slot with a truthy final wins, otherwise the last
slot with a truthy initial. -/
theorem c3_amended_selection :
    (∀ cfg : List (Option AdvSlot), legacy_select_best cfg = spec_select_amended cfg) ∧
    (∀ cfg : List (Option AdvSlot), v3_select_best cfg 0 none = spec_select_v3 cfg) :=
  ⟨legacy_eq_amended, v3_eq_spec_v3⟩
